import Mathlib

/-!
Verification development for the hyperspace backend's data-fusion core.

The Python sources under backend/app/services are shallowly embedded:
pure numeric code is translated to functions over the rationals, the
stateful module-level caches become explicit list-valued state, network
responses become explicit parameters, and the transcendental functions
of the math module (sin, cos, asin, pi) become function parameters so
that control-flow and selection logic can be verified independently of
their values.  Floating-point arithmetic is modelled by exact rational
arithmetic; the square root of the reference implementation is modelled
by ratSqrt, which agrees with the mathematical square root on every
perfect square of a rational (all concrete inputs used in this file are
chosen so that every square root taken is such a perfect square).
-/

/-! ## Python rounding primitives -/

/-- Python's builtin round() to an integer: round half to even
(banker's rounding), modelled on exact rationals. -/
def pyRoundInt (q : ℚ) : ℤ :=
  if q - (⌊q⌋ : ℚ) < 1/2 then ⌊q⌋
  else if 1/2 < q - (⌊q⌋ : ℚ) then ⌊q⌋ + 1
  else if ⌊q⌋ % 2 = 0 then ⌊q⌋ else ⌊q⌋ + 1

/-- Python's round(x, nd) for nd decimal digits, on exact rationals. -/
def pyRound (nd : ℕ) (q : ℚ) : ℚ :=
  (pyRoundInt (q * (10 : ℚ) ^ nd) : ℚ) / (10 : ℚ) ^ nd

/-- Python's int() applied to a float: truncation toward zero. -/
def pyTrunc (q : ℚ) : ℤ :=
  if q < 0 then -⌊-q⌋ else ⌊q⌋

/-- One Heron (Newton) iteration chain for the integer square root,
with explicit fuel so that it reduces by structural recursion. -/
def heron (n : ℕ) : ℕ → ℕ → ℕ
  | x, 0 => x
  | x, f + 1 => if (x + n / x) / 2 < x then heron n ((x + n / x) / 2) f else x

/-- Integer square root by Heron iteration from the initial guess n. -/
def isqrt (n : ℕ) : ℕ := if n = 0 then 0 else heron n n n

/-- Model of the nonnegative square root used by numpy, as a total
function on the rationals.  On the square of any rational it returns
the exact (nonnegative) mathematical square root; every concrete
computation in this development only takes square roots of perfect
squares, where this model agrees with real square root. -/
def ratSqrt (q : ℚ) : ℚ :=
  if q < 0 then 0 else (isqrt q.num.toNat : ℚ) / (isqrt q.den : ℚ)

/-! ## CropEngine (services/crop_engine.py)

The engine loads a CSV of labelled rows over the seven features
N, P, K, temperature, humidity, ph, rainfall, stores per-column mean
and standard deviation (zero std replaced by one), and answers
predict() queries by inverse-distance-weighted voting over the
min(4 * top_k, n) nearest rows.  A failed load is the None state. -/

structure CropRow where
  features : List ℚ
  label : String
deriving DecidableEq

structure CropData where
  rows : List CropRow
deriving DecidableEq

def nFeatures : ℕ := 7

def colVals (rows : List CropRow) (j : ℕ) : List ℚ :=
  rows.map (fun r => r.features.getD j 0)

def listMean (l : List ℚ) : ℚ := l.sum / (l.length : ℚ)

def colMean (rows : List CropRow) (j : ℕ) : ℚ := listMean (colVals rows j)

/-- numpy population standard deviation of column j. -/
def colStdRaw (rows : List CropRow) (j : ℕ) : ℚ :=
  ratSqrt (listMean ((colVals rows j).map
    (fun x => (x - colMean rows j) * (x - colMean rows j))))

/-- Zero standard deviations are replaced by one at load time. -/
def colStd (rows : List CropRow) (j : ℕ) : ℚ :=
  if colStdRaw rows j = 0 then 1 else colStdRaw rows j

/-- Standardize a 7-feature vector with the dataset's mean and std. -/
def normalizeVec (rows : List CropRow) (x : List ℚ) : List ℚ :=
  (List.range nFeatures).map (fun j => (x.getD j 0 - colMean rows j) / colStd rows j)

/-- Euclidean distance between the standardized query and one standardized row. -/
def rowDist (rows : List CropRow) (q : List ℚ) (r : CropRow) : ℚ :=
  ratSqrt ((List.zipWith (fun a b => (a - b) * (a - b))
    (normalizeVec rows r.features) (normalizeVec rows q)).sum)

def distances (d : CropData) (q : List ℚ) : List ℚ :=
  d.rows.map (rowDist d.rows q)

/-- Over-sampled neighbour count: min(top_k * 4, dataset size). -/
def kNeighbours (topk n : ℕ) : ℕ := min (topk * 4) n

/-- Comparison of two indices by their distances. -/
def distLE (ds : List ℚ) (i j : ℕ) : Prop := ds.getD i 0 ≤ ds.getD j 0

instance (ds : List ℚ) : DecidableRel (distLE ds) := fun i j =>
  inferInstanceAs (Decidable (ds.getD i 0 ≤ ds.getD j 0))

instance (ds : List ℚ) : IsTotal ℕ (distLE ds) := ⟨fun _ _ => le_total _ _⟩

instance (ds : List ℚ) : IsTrans ℕ (distLE ds) := ⟨fun _ _ _ h1 h2 => le_trans h1 h2⟩


/-- np.argsort of the distance list: index list sorted by ascending
distance (stable among exact ties in this model). -/
def argsort (ds : List ℚ) : List ℕ :=
  List.insertionSort (distLE ds) (List.range ds.length)

def nearestIdx (d : CropData) (q : List ℚ) (topk : ℕ) : List ℕ :=
  (argsort (distances d q)).take (kNeighbours topk (distances d q).length)

/-- The epsilon added to each distance before inverting: 1e-6. -/
def epsWeight : ℚ := 1 / 1000000

/-- Label and inverse-distance vote weight of each selected neighbour. -/
def neighbourVotes (d : CropData) (q : List ℚ) (topk : ℕ) : List (String × ℚ) :=
  (nearestIdx d q topk).map (fun i =>
    ((d.rows.getD i ⟨[], ""⟩).label, 1 / ((distances d q).getD i 0 + epsWeight)))

/-- One step of the crop_scores dict accumulation: add weight w to
label l, keeping dict insertion order. -/
def addScore : List (String × ℚ) → String → ℚ → List (String × ℚ)
  | [], l, w => [(l, w)]
  | (l', s) :: rest, l, w =>
      if l' = l then (l', s + w) :: rest else (l', s) :: addScore rest l w

/-- The crop_scores dict as an insertion-ordered association list. -/
def cropScores (d : CropData) (q : List ℚ) (topk : ℕ) : List (String × ℚ) :=
  (neighbourVotes d q topk).foldl (fun acc p => addScore acc p.1 p.2) []

/-- Descending comparison of two scored labels. -/
def scoreGE (a b : String × ℚ) : Prop := b.2 ≤ a.2

instance : DecidableRel scoreGE := fun a b =>
  inferInstanceAs (Decidable (b.2 ≤ a.2))

instance : IsTotal (String × ℚ) scoreGE := ⟨fun a b => le_total b.2 a.2⟩

instance : IsTrans (String × ℚ) scoreGE := ⟨fun _ _ _ h1 h2 => le_trans h2 h1⟩

/-- sorted(crop_scores.items(), key=score, reverse=True): stable
descending sort of the label scores. -/
def sortedCrops (d : CropData) (q : List ℚ) (topk : ℕ) : List (String × ℚ) :=
  List.insertionSort scoreGE (cropScores d q topk)

/-- predict() on a loaded dataset: total is the sum over ALL candidate
labels of sorted_crops; each of the top_k returned labels gets
confidence round(min(score / total, 1.0), 2). -/
def predictLoaded (d : CropData) (q : List ℚ) (topk : ℕ) : List (String × ℚ) :=
  ((sortedCrops d q topk).take topk).map
    (fun p => (p.1, pyRound 2 (min (p.2 / ((sortedCrops d q topk).map Prod.snd).sum) 1)))

/-- CropEngine.predict: the engine state is None when the dataset
failed to load, in which case a single fixed fallback is returned. -/
def predict (eng : Option CropData) (q : List ℚ) (topk : ℕ) : List (String × ℚ) :=
  match eng with
  | none => [("wheat", 1/2)]
  | some d => predictLoaded d q topk

/-- The vote weight accumulated for one label over the selected
neighbours, written independently of the dict accumulation: the sum of
the weights of the neighbours carrying that label. -/
def labelWeight (d : CropData) (q : List ℚ) (topk : ℕ) (l : String) : ℚ :=
  (((neighbourVotes d q topk).filter (fun p => p.1 = l)).map Prod.snd).sum

/-- Total vote weight over all selected neighbours. -/
def totalWeight (d : CropData) (q : List ℚ) (topk : ℕ) : ℚ :=
  ((neighbourVotes d q topk).map Prod.snd).sum

/-- Confidences as claim C1 words them: each of the top top_k labels
is normalized by the sum of weights within the returned top-k set
only. -/
def topkNormalized (d : CropData) (q : List ℚ) (topk : ℕ) : List (String × ℚ) :=
  ((sortedCrops d q topk).take topk).map
    (fun p => (p.1, p.2 / (((sortedCrops d q topk).take topk).map Prod.snd).sum))

/-! ## Market demo data (services/market_brain.py, _demo_mandi_data) -/

/-- One demo mandi snapshot entry. -/
structure MandiEntry where
  mandi : String
  commodity : String
  modal_price : ℤ
  price_min : ℤ
  price_max : ℤ
  arrivals_ton : ℤ
  date : String
deriving DecidableEq

/-- The fixed base commodity table of _demo_mandi_data:
(commodity, base_price, arrivals). -/
def baseCommodities : List (String × ℤ × ℤ) :=
  [("Wheat", 2100, 30), ("Rice", 2800, 25), ("Cotton", 5200, 12),
   ("Soybean", 4100, 18), ("Sugarcane", 280, 45), ("Onion", 1500, 8),
   ("Potato", 900, 35), ("Tomato", 1200, 6)]

/-- _demo_mandi_data.  Python's builtin hash() of a string is
process-seed dependent, so it is passed as a parameter; latlonStr
stands for the interpolation of lat and lon into the arrival hash key.
price_min is int(modal * 0.95) and price_max is int(modal * 1.05),
both truncations. -/
def demoMandiData (pyHash : String → ℤ) (region latlonStr today : String) :
    List MandiEntry :=
  baseCommodities.map (fun c =>
    let priceVar := pyHash (region ++ c.1) % 400 - 200
    let arrivalVar := pyHash (latlonStr ++ c.1) % 10 - 5
    let modal := max 100 (c.2.1 + priceVar)
    let arrivals := max 1 (c.2.2 + arrivalVar)
    { mandi := region ++ " Mandi", commodity := c.1, modal_price := modal,
      price_min := pyTrunc ((modal : ℚ) * (19/20)),
      price_max := pyTrunc ((modal : ℚ) * (21/20)),
      arrivals_ton := arrivals, date := today })

/-! ## Offline soil lookup (services/data_fusion.py, _lookup_soil) -/

/-- An offline soil database region record; optional fields model the
dict .get defaults of the source. -/
structure Region where
  lat_range : Option (ℚ × ℚ)
  lon_range : Option (ℚ × ℚ)
  city : Option String
  state : Option String
  soil_type : Option String
  soil_ph : Option ℚ
  soil_texture : Option String
  organic_carbon_pct : Option ℚ
  nitrogen_kg_ha : Option ℚ
  phosphorus_kg_ha : Option ℚ
  potassium_kg_ha : Option ℚ
  recommended_crops : Option (List String)
  description : Option String

/-- The soil payload _format_soil builds from a region record (note is
the extra key added on the nearest-match path). -/
structure SoilInfo where
  type : String
  ph : ℚ
  texture : String
  organic_carbon_pct : ℚ
  nitrogen_kg_ha : ℚ
  phosphorus_kg_ha : ℚ
  potassium_kg_ha : ℚ
  recommended_crops : List String
  description : String
  note : Option String
deriving DecidableEq

/-- _format_soil with its .get defaults. -/
def formatSoil (r : Region) : SoilInfo :=
  { type := r.soil_type.getD "Unknown", ph := r.soil_ph.getD 7,
    texture := r.soil_texture.getD "Loam",
    organic_carbon_pct := r.organic_carbon_pct.getD (9/20),
    nitrogen_kg_ha := r.nitrogen_kg_ha.getD 200,
    phosphorus_kg_ha := r.phosphorus_kg_ha.getD 15,
    potassium_kg_ha := r.potassium_kg_ha.getD 220,
    recommended_crops := r.recommended_crops.getD [],
    description := r.description.getD "", note := none }

def latRange (r : Region) : ℚ × ℚ := r.lat_range.getD (0, 0)

def lonRange (r : Region) : ℚ × ℚ := r.lon_range.getD (0, 0)

/-- Bounding-box containment test of _lookup_soil. -/
def inBox (lat lon : ℚ) (r : Region) : Bool :=
  decide ((latRange r).1 ≤ lat) && decide (lat ≤ (latRange r).2) &&
  decide ((lonRange r).1 ≤ lon) && decide (lon ≤ (lonRange r).2)

def boxCenter (r : Region) : ℚ × ℚ :=
  (((latRange r).1 + (latRange r).2) / 2, ((lonRange r).1 + (lonRange r).2) / 2)

/-- Oracles for the transcendental functions of the math module used
by _haversine; their values are irrelevant to the selection logic. -/
structure MathOracle where
  sin : ℚ → ℚ
  cos : ℚ → ℚ
  asin : ℚ → ℚ
  sqrt : ℚ → ℚ
  pi : ℚ

def radians (o : MathOracle) (x : ℚ) : ℚ := x * o.pi / 180

/-- _haversine with Earth radius 6371 km, over the math oracle. -/
def haversine (o : MathOracle) (lat1 lon1 lat2 lon2 : ℚ) : ℚ :=
  let dlat := radians o (lat2 - lat1)
  let dlon := radians o (lon2 - lon1)
  let a := o.sin (dlat / 2) * o.sin (dlat / 2) +
    o.cos (radians o lat1) * o.cos (radians o lat2) *
      (o.sin (dlon / 2) * o.sin (dlon / 2))
  6371 * 2 * o.asin (o.sqrt a)

/-- Haversine distance from the coordinate to a region's box center. -/
def regionDist (o : MathOracle) (lat lon : ℚ) (r : Region) : ℚ :=
  haversine o lat lon (boxCenter r).1 (boxCenter r).2

/-- One iteration of _lookup_soil's nearest-region loop: replace the
best (region, distance) pair on a strictly smaller distance; none
stands for the initial float infinity state. -/
def nearestStep (f : Region → ℚ) (best : Option (Region × ℚ)) (r : Region) :
    Option (Region × ℚ) :=
  match best with
  | none => some (r, f r)
  | some (b, bd) => if f r < bd then some (r, f r) else some (b, bd)

/-- The strict-less fold of _lookup_soil's nearest-region loop. -/
def nearestFold (o : MathOracle) (lat lon : ℚ) (regions : List Region) :
    Option (Region × ℚ) :=
  regions.foldl (nearestStep (regionDist o lat lon)) none

/-- The f-string formatting of the distance in the note: rounded half
to even to zero decimals. -/
def kmString (d : ℚ) : String := toString (pyRoundInt d)

def nearestNote (r : Region) (d : ℚ) : String :=
  "Nearest match: " ++ (r.city.getD "None") ++ " (" ++ kmString d ++ " km away)"

/-- _lookup_soil: first bounding-box match; otherwise the nearest
box-center by haversine distance through the strict-less fold,
accepted only when strictly under 150 km; otherwise the default
profile.  Region records are assumed non-empty as dicts (every record
of the shipped database is), so the truthiness test on best is the
none test of the fold state. -/
def lookupSoil (o : MathOracle) (regions : List Region) (dflt : Region)
    (lat lon : ℚ) : SoilInfo :=
  match regions.find? (inBox lat lon) with
  | some r => formatSoil r
  | none =>
      match nearestFold o lat lon regions with
      | some (b, bd) =>
          if bd < 150 then
            { formatSoil b with note := some (nearestNote b bd) }
          else formatSoil dflt
      | none => formatSoil dflt

/-- Claim C2's wording of the same lookup: the first region whose box
contains the coordinate; else the region of minimal center distance
(first in declaration order among ties), accepted only when the
minimal distance is strictly below 150 km; otherwise the default. -/
def lookupSoilSpec (o : MathOracle) (regions : List Region) (dflt : Region)
    (lat lon : ℚ) : SoilInfo :=
  match regions.find? (inBox lat lon) with
  | some r => formatSoil r
  | none =>
      match (regions.map (regionDist o lat lon)).min? with
      | some m =>
          if m < 150 then
            match regions.find? (fun r => decide (regionDist o lat lon r = m)) with
            | some b => { formatSoil b with note := some (nearestNote b m) }
            | none => formatSoil dflt
          else formatSoil dflt
      | none => formatSoil dflt

/-! ## Live soil service (services/sisindia_soil.py) -/

/-- Lookup of a key in a JSON object of numeric fields (dict .get). -/
def getProp (ps : List (String × ℚ)) (k : String) : Option ℚ :=
  (ps.find? (fun p => p.1 == k)).map Prod.snd

/-- A parsed GeoJSON feature; only the nested soil_properties object
is read by the parser (a missing properties or soil_properties key
yields the empty object, matching the .get defaults). -/
structure Feature where
  soil_properties : List (String × ℚ)

structure GeoJson where
  features : List Feature

/-- _extract_soil_properties of a 200-response body: None when there
are no features, when the soil_properties object is empty (falsy), or
when it has neither a pH nor an N value; otherwise the object. -/
def extractSoilProperties (g : GeoJson) : Option (List (String × ℚ)) :=
  match g.features with
  | [] => none
  | f :: _ =>
      if f.soil_properties.isEmpty then none
      else if (getProp f.soil_properties "pH").isNone &&
              (getProp f.soil_properties "N").isNone then none
      else some f.soil_properties

/-- _infer_soil_type. -/
def inferSoilType (ph oc ec fe : ℚ) : String :=
  if ph < 11/2 then "Acidic Laterite"
  else if ph < 6 ∧ 10 < fe then "Red Laterite"
  else if ph < 13/2 then "Red Soil"
  else if 13/2 ≤ ph ∧ ph ≤ 15/2 ∧ 1/2 < oc then "Alluvial (Fertile)"
  else if 13/2 ≤ ph ∧ ph ≤ 15/2 then "Alluvial"
  else if 15/2 < ph ∧ 1 < ec then "Saline-Alkaline"
  else if 15/2 < ph ∧ 1/2 < oc then "Black Cotton (Vertisol)"
  else if 8 < ph then "Desert Sandy"
  else "Mixed Soil"

/-- _infer_texture. -/
def inferTexture (ph oc k : ℚ) : String :=
  if 7/10 < oc then "Clay Loam (Organic-rich)"
  else if 1/2 < oc ∧ 250 < k then "Heavy Clay"
  else if 2/5 < oc then "Loam"
  else if k < 150 then "Sandy"
  else if 8 < ph then "Coarse Sand"
  else "Sandy Loam"

/-- The seen-set deduplication loop of _recommend_crops_from_nutrients:
keeps the first occurrence of each crop, in order. -/
def dedupFirstAux (seen : List String) : List String → List String
  | [] => []
  | x :: xs =>
      if x ∈ seen then dedupFirstAux seen xs
      else x :: dedupFirstAux (x :: seen) xs

def dedupFirst (l : List String) : List String := dedupFirstAux [] l

/-- _recommend_crops_from_nutrients: nutrient-threshold crop list,
deduplicated keeping first occurrences, capped at 6. -/
def recommendCrops (n p k ph oc : ℚ) : List String :=
  let l1 : List String :=
    if 200 < n then ["Rice", "Sugarcane"]
    else if 120 < n then ["Wheat", "Maize"] else ["Bajra"]
  let l2 : List String :=
    if 20 < p then ["Potato", "Mustard"] else if 12 < p then ["Wheat"] else []
  let l3 : List String :=
    if 250 < k then ["Cotton", "Banana"] else if 180 < k then ["Vegetables"] else []
  let l4 : List String :=
    if ph < 11/2 then ["Tea", "Coffee"]
    else if ph < 13/2 then ["Ragi", "Groundnut"]
    else if 8 < ph then ["Bajra", "Guar"]
    else if 15/2 < ph then ["Gram"] else []
  let l5 : List String := if 3/5 < oc then ["Vegetables"] else []
  (dedupFirst (l1 ++ l2 ++ l3 ++ l4 ++ l5)).take 6

/-- The app-format soil payload _convert_to_soil_format builds (its
description string is presentation only and is not modelled). -/
structure SisSoil where
  type : String
  ph : ℚ
  texture : String
  organic_carbon_pct : ℚ
  nitrogen_kg_ha : ℚ
  phosphorus_kg_ha : ℚ
  potassium_kg_ha : ℚ
  ec : ℚ
  iron_ppm : ℚ
  zinc_ppm : ℚ
  sulphur_ppm : ℚ
  recommended_crops : List String
deriving DecidableEq

/-- _convert_to_soil_format with its .get defaults. -/
def convertToSoilFormat (raw : List (String × ℚ)) : SisSoil :=
  let ph := (getProp raw "pH").getD 7
  let oc := (getProp raw "OC").getD (9/20)
  let n := (getProp raw "N").getD 200
  let p := (getProp raw "P").getD 15
  let k := (getProp raw "K").getD 220
  let ec := (getProp raw "EC").getD 0
  let fe := (getProp raw "Fe").getD 0
  let s := (getProp raw "S").getD 0
  let zn := (getProp raw "Zn").getD 0
  { type := inferSoilType ph oc ec fe, ph := pyRound 1 ph,
    texture := inferTexture ph oc k,
    organic_carbon_pct := pyRound 2 oc,
    nitrogen_kg_ha := pyRound 0 n, phosphorus_kg_ha := pyRound 0 p,
    potassium_kg_ha := pyRound 0 k, ec := pyRound 2 ec,
    iron_ppm := pyRound 1 fe, zinc_ppm := pyRound 1 zn,
    sulphur_ppm := pyRound 1 s,
    recommended_crops := recommendCrops n p k ph oc }

/-- The sisindia in-memory cache: an insertion-ordered list of
key/value pairs standing for the Python module-level dict, keyed by
the rounded coordinate pair. -/
abbrev SoilCache (α : Type) : Type := List ((ℚ × ℚ) × α)

def maxCacheSize : ℕ := 500

/-- _get_cached: dict lookup. -/
def cacheLookup {α : Type} (c : SoilCache α) (k : ℚ × ℚ) : Option α :=
  (c.find? (fun p => decide (p.1 = k))).map Prod.snd

/-- Python dict assignment d[k] = v: update in place when the key is
present, else append at the end (insertion order). -/
def dictSet {α : Type} : SoilCache α → (ℚ × ℚ) → α → SoilCache α
  | [], k, v => [(k, v)]
  | (k', v') :: rest, k, v =>
      if k' = k then (k', v) :: rest else (k', v') :: dictSet rest k v

/-- _set_cached: evict the first (oldest-inserted) key when the cache
is at capacity, then store the new entry. -/
def setCached {α : Type} (c : SoilCache α) (k : ℚ × ℚ) (v : α) : SoilCache α :=
  if maxCacheSize ≤ c.length then dictSet (c.drop 1) k v else dictSet c k v

/-- India bounds of the SISIndia API. -/
def latMinIndia : ℚ := 79655/10000

def latMaxIndia : ℚ := 354940/10000

def lonMinIndia : ℚ := 681766/10000

def lonMaxIndia : ℚ := 974026/10000

/-- The two endpoints' parsed 200-response bodies; none stands for any
failure: timeout, connection error, non-2xx status or a 204. -/
structure SisEnv where
  districtResp : Option GeoJson
  griddedResp : Option GeoJson

/-- _query_district: parse the response when one arrives. -/
def queryDistrict (env : SisEnv) : Option (List (String × ℚ)) :=
  match env.districtResp with
  | none => none
  | some g => extractSoilProperties g

/-- _query_gridded: parse the response when one arrives. -/
def queryGridded (env : SisEnv) : Option (List (String × ℚ)) :=
  match env.griddedResp with
  | none => none
  | some g => extractSoilProperties g

structure FetchResult where
  result : Option SisSoil
  cache : SoilCache SisSoil
  networkCalls : ℕ
deriving DecidableEq

/-- fetch_sisindia_soil: India bounds check, cache lookup on the
coordinate rounded to 2 decimals, district query then gridded query,
conversion and cache store.  networkCalls counts issued HTTP queries. -/
def fetchSisindiaSoil (env : SisEnv) (cache : SoilCache SisSoil)
    (lat lon : ℚ) : FetchResult :=
  if ¬ (latMinIndia ≤ lat ∧ lat ≤ latMaxIndia ∧
         lonMinIndia ≤ lon ∧ lon ≤ lonMaxIndia) then
    ⟨none, cache, 0⟩
  else
    match cacheLookup cache (pyRound 2 lat, pyRound 2 lon) with
    | some v => ⟨some v, cache, 0⟩
    | none =>
        match queryDistrict env with
        | some raw =>
            ⟨some (convertToSoilFormat raw),
             setCached cache (pyRound 2 lat, pyRound 2 lon) (convertToSoilFormat raw), 1⟩
        | none =>
            match queryGridded env with
            | some raw =>
                ⟨some (convertToSoilFormat raw),
                 setCached cache (pyRound 2 lat, pyRound 2 lon) (convertToSoilFormat raw), 2⟩
            | none => ⟨none, cache, 2⟩

/-- get_location_context's soil source selection: the live SISIndia
result when present, else the offline database lookup. -/
def chooseSoil (live : Option SisSoil) (offline : SoilInfo) : SisSoil ⊕ SoilInfo :=
  match live with
  | some s => Sum.inl s
  | none => Sum.inr offline

/-! ## Weather estimator (services/data_fusion.py, _estimate_weather) -/

structure Weather where
  temp : ℚ
  humidity : ℚ
  rain : ℚ
  moisture : ℚ
  live : Bool
deriving DecidableEq

/-- _estimate_weather(lat, lon) with the ambient calendar month made
an explicit argument and math.sin / math.cos as oracles. -/
def estimateWeather (sin cos : ℚ → ℚ) (lat lon : ℚ) (month : ℕ) : Weather :=
  let absLat := |lat|
  let baseTemp0 : ℚ := 30 - (absLat - 10) * (11/20)
  let baseTemp1 : ℚ :=
    if 0 < lat then
      if month = 12 ∨ month = 1 ∨ month = 2 then baseTemp0 - 8
      else if month = 3 ∨ month = 4 ∨ month = 5 then baseTemp0 + 4
      else if month = 6 ∨ month = 7 ∨ month = 8 ∨ month = 9 then baseTemp0 + 1
      else baseTemp0 - 2
    else baseTemp0
  let baseTemp2 : ℚ := if 30 < absLat then baseTemp1 - 3 else baseTemp1
  let baseTemp3 : ℚ :=
    if (72 < lon ∧ lon < 74) ∨ (85 < lon ∧ lon < 90) then
      baseTemp2 * (19/20) + 1
    else baseTemp2
  let micro := sin (lat * (37/10) + lon * (23/10)) * (3/2)
  let temp := max 5 (min 48 (pyRound 1 (baseTemp3 + micro)))
  let baseHum1 : ℚ :=
    if month = 6 ∨ month = 7 ∨ month = 8 ∨ month = 9 then 50 + 20
    else if month = 12 ∨ month = 1 ∨ month = 2 then 50 - 10
    else 50
  let baseHum2 : ℚ := if lon < 74 ∨ 86 < lon then baseHum1 + 12 else baseHum1
  let humVar := cos (lat * (21/10) + lon * (9/5)) * 5
  let humidity := max 15 (min 95 (pyRound 1 (baseHum2 + humVar)))
  let rain : ℚ :=
    if month = 6 ∨ month = 7 ∨ month = 8 ∨ month = 9 then
      pyRound 1 (2 + |sin (lon * (1/2))| * 6)
    else 0
  let moisture :=
    max (1/20) (min (3/5)
      (pyRound 2 (1/5 + (humidity - 40) * (3/1000) + rain * (1/100))))
  ⟨temp, humidity, rain, moisture, false⟩

/-- The ambient wall clock visible to _estimate_weather through
datetime.now(); only the month field is ever read. -/
structure DateTimeNow where
  year : ℕ
  month : ℕ
  day : ℕ
  hour : ℕ
  minute : ℕ

/-- _estimate_weather as called in production: it reads the calendar
month from the ambient clock and is otherwise a pure function of the
coordinate. -/
def estimateWeatherAt (sin cos : ℚ → ℚ) (now : DateTimeNow) (lat lon : ℚ) : Weather :=
  estimateWeather sin cos lat lon now.month

/-- A concrete full cache: 500 distinct rounded-coordinate keys. -/
def c500 : SoilCache ℕ := (List.range 500).map (fun i : ℕ => (((i : ℚ), (0 : ℚ)), i))

/-- Lookup in the crop_scores association list. -/
def assocLookup (c : List (String × ℚ)) (l : String) : Option ℚ :=
  (c.find? (fun p => decide (p.1 = l))).map Prod.snd

/-- Total vote weight a label receives from a vote list. -/
def sumForLabel (vs : List (String × ℚ)) (l : String) : ℚ :=
  ((vs.filter (fun p => decide (p.1 = l))).map Prod.snd).sum

/-! ## Concrete datasets for the classifier claims -/

/-- A reference row with a single active feature. -/
def cexRow (v : ℚ) (l : String) : CropRow := ⟨[v, 0, 0, 0, 0, 0, 0], l⟩

/-- Dataset refuting the C1 top-k-normalization reading. -/
def cexD1 : CropData := ⟨[cexRow 3 "wheat", cexRow 5 "rice", cexRow (-3) "rice",
  cexRow 11 "wheat"]⟩

def cexQ1 : List ℚ := [9/2, 0, 0, 0, 0, 0, 0]

/-- Dataset whose rounded confidences sum above one. -/
def cexD4 : CropData := ⟨[cexRow 0 "maize", cexRow 0 "maize", cexRow 0 "maize",
  cexRow 0 "cotton", cexRow 2 "cotton", cexRow 2 "cotton", cexRow 2 "jute",
  cexRow 2 "jute"]⟩

def cexQ4 : List ℚ := [1, 0, 0, 0, 0, 0, 0]

/-- Dataset where an exact match (the unique row at distance zero) is
out-voted by near-duplicate rows of another label. -/
def cexD5 : CropData := ⟨[cexRow 0 "apple", cexRow 1 "banana", cexRow (-1) "banana",
  cexRow 6406803 "cherry", cexRow (-6406803) "cherry"]⟩

def cexQ5 : List ℚ := [0, 0, 0, 0, 0, 0, 0]

/-- Dataset where the exact match is well separated: every other row is
at standardized distance at least one. -/
def cexD7 : CropData := ⟨[cexRow 0 "apple", cexRow 26 "banana", cexRow (-26) "banana",
  cexRow 31 "cherry", cexRow (-31) "cherry", cexRow 27 "damson", cexRow (-27) "damson"]⟩

def cexQ7 : List ℚ := [0, 0, 0, 0, 0, 0, 0]

/-! ## Helper lemmas for the embedding primitives -/

/-- The Heron iteration, started at or above k with enough fuel,
computes exactly k on input k * k. -/
theorem heron_sq (k : ℕ) (hk : 1 ≤ k) :
    ∀ f x, k ≤ x → x ≤ k + f → heron (k * k) x f = k := by
  intro f
  induction f with
  | zero =>
    intro x h1 h2
    have hx : x = k := by omega
    subst hx
    rfl
  | succ f ih =>
    intro x h1 h2
    rcases eq_or_lt_of_le h1 with he | hlt
    · subst he
      have hd : k * k / k = k := Nat.mul_div_cancel_left k (by omega)
      have hcond : ¬ ((k + k * k / k) / 2 < k) := by
        rw [hd]
        omega
      simp only [heron, if_neg hcond]
    · have hxpos : 0 < x := by omega
      have hdm := Nat.div_add_mod (k * k) x
      have hml := Nat.mod_lt (k * k) hxpos
      have hstep_ge : k ≤ (x + k * k / x) / 2 := by
        have h2k : 2 * k ≤ x + k * k / x := by
          by_contra hcon
          push_neg at hcon
          have hz1 : (x : ℤ) * ((k * k / x : ℕ) : ℤ) + ((k * k % x : ℕ) : ℤ) = (k : ℤ) * k := by
            exact_mod_cast hdm
          have hz2 : ((k * k % x : ℕ) : ℤ) < (x : ℤ) := by exact_mod_cast hml
          have hz3 : (x : ℤ) + ((k * k / x : ℕ) : ℤ) ≤ 2 * k - 1 := by
            have : x + k * k / x ≤ 2 * k - 1 := by omega
            have hcast : ((x + k * k / x : ℕ) : ℤ) ≤ ((2 * k - 1 : ℕ) : ℤ) := by
              exact_mod_cast this
            push_cast at hcast
            omega
          nlinarith [sq_nonneg ((x : ℤ) - k)]
        omega
      have hstep_lt : (x + k * k / x) / 2 < x := by
        have hq : k * k / x < x := by
          refine (Nat.div_lt_iff_lt_mul hxpos).mpr ?_
          nlinarith
        omega
      simp only [heron, if_pos hstep_lt]
      exact ih _ hstep_ge (by omega)

/-- isqrt is exact on perfect squares. -/
theorem isqrt_sq (k : ℕ) : isqrt (k * k) = k := by
  rcases Nat.eq_zero_or_pos k with h0 | hpos
  · subst h0
    rfl
  · have hkk : k * k ≠ 0 := by positivity
    rw [isqrt, if_neg hkk]
    refine heron_sq k hpos (k * k) (k * k) ?_ ?_
    · nlinarith
    · omega

theorem ratSqrt_nonneg (q : ℚ) : 0 ≤ ratSqrt q := by
  unfold ratSqrt
  split
  · exact le_refl 0
  · positivity

theorem ratSqrt_zero : ratSqrt 0 = 0 := by
  unfold ratSqrt
  norm_num
  left
  rfl

/-- ratSqrt is exact on squares of rationals. -/
theorem ratSqrt_sq (a : ℚ) : ratSqrt (a * a) = |a| := by
  unfold ratSqrt
  rw [if_neg (not_lt.mpr (mul_self_nonneg a))]
  rw [Rat.mul_self_num, Rat.mul_self_den]
  have h1 : (a.num * a.num).toNat = a.num.natAbs * a.num.natAbs := by
    rw [← Int.natAbs_mul_self]
    exact Int.toNat_natCast _
  rw [h1, isqrt_sq, isqrt_sq]
  have h2 : ((a.num.natAbs : ℚ)) = |(a.num : ℚ)| := by
    rw [Int.cast_natAbs, Int.cast_abs]
  rw [h2]
  conv_rhs => rw [← Rat.num_div_den a]
  rw [abs_div, abs_of_nonneg (by positivity : (0:ℚ) ≤ (a.den : ℚ))]

/-- pyRoundInt is within one half of its argument. -/
theorem pyRoundInt_le (q : ℚ) : |(pyRoundInt q : ℚ) - q| ≤ 1/2 := by
  unfold pyRoundInt
  have hf := Int.floor_le q
  have hc := Int.lt_floor_add_one q
  split <;> rename_i h1
  · rw [abs_le]
    constructor <;> linarith
  · split <;> rename_i h2
    · rw [abs_le]
      push_cast
      constructor <;> linarith
    · have : q - (⌊q⌋ : ℚ) = 1/2 := le_antisymm (not_lt.mp h2) (not_lt.mp h1)
      split <;> rw [abs_le] <;> push_cast <;> constructor <;> linarith

/-- pyRoundInt of a nonnegative rational is nonnegative. -/
theorem pyRoundInt_nonneg {q : ℚ} (h : 0 ≤ q) : 0 ≤ pyRoundInt q := by
  unfold pyRoundInt
  have hf : (0 : ℤ) ≤ ⌊q⌋ := Int.floor_nonneg.mpr h
  split
  · exact hf
  · split
    · omega
    · split <;> omega

/-- pyRoundInt never exceeds an integer bound of its argument. -/
theorem pyRoundInt_le_of_le {q : ℚ} {n : ℤ} (h : q ≤ (n : ℚ)) : pyRoundInt q ≤ n := by
  unfold pyRoundInt
  have hf : ⌊q⌋ ≤ n := by
    have := Int.floor_le_floor h
    rwa [Int.floor_intCast] at this
  rcases eq_or_lt_of_le hf with he | hl
  · have : q - (⌊q⌋ : ℚ) ≤ 0 := by
      rw [he]
      linarith
    rw [if_pos (lt_of_le_of_lt this (by norm_num))]
    exact hf
  · split
    · exact hf
    · split
      · omega
      · split <;> omega

set_option maxRecDepth 100000

/-- Integer lower and upper bounds and the floor identity for the
truncated demo prices. -/
theorem price_trunc_bounds (m : ℤ) (hm : 100 ≤ m) :
    pyTrunc ((m : ℚ) * (19/20)) ≤ m ∧ m ≤ pyTrunc ((m : ℚ) * (21/20)) ∧
    pyTrunc ((m : ℚ) * (19/20)) = ⌊(m : ℚ) * (19/20)⌋ := by
  have hm0 : (0 : ℚ) ≤ (m : ℚ) := by
    have : (0 : ℤ) ≤ m := by omega
    exact_mod_cast this
  have h0 : (0 : ℚ) ≤ (m : ℚ) * (19/20) := by positivity
  have h1 : (0 : ℚ) ≤ (m : ℚ) * (21/20) := by positivity
  have ht : pyTrunc ((m : ℚ) * (19/20)) = ⌊(m : ℚ) * (19/20)⌋ := by
    unfold pyTrunc
    rw [if_neg (not_lt.mpr h0)]
  refine ⟨?_, ?_, ht⟩
  · rw [ht]
    have hle : (m : ℚ) * (19/20) ≤ (m : ℚ) := by linarith
    have := Int.floor_le_floor hle
    rwa [Int.floor_intCast] at this
  · unfold pyTrunc
    rw [if_neg (not_lt.mpr h1)]
    apply Int.le_floor.mpr
    linarith

/-- C3 (amended): the demo market snapshot has exactly 8 commodities,
and every entry has price_min at most the modal price, the modal price
at most price_max, and price_min equal to the TRUNCATION (Python int())
of 0.95 times the modal price, which is its floor since prices are
positive. -/
theorem claim_c3_amended (pyHash : String → ℤ) (region latlonStr today : String) :
    (demoMandiData pyHash region latlonStr today).length = 8 ∧
    ∀ e ∈ demoMandiData pyHash region latlonStr today,
      e.price_min ≤ e.modal_price ∧ e.modal_price ≤ e.price_max ∧
      e.price_min = ⌊(e.modal_price : ℚ) * (19/20)⌋ := by
  constructor
  · simp [demoMandiData, baseCommodities]
  · intro e he
    unfold demoMandiData at he
    obtain ⟨c, hc, rfl⟩ := List.mem_map.mp he
    have hm : (100 : ℤ) ≤ max 100 (c.2.1 + (pyHash (region ++ c.1) % 400 - 200)) :=
      le_max_left _ _
    obtain ⟨b1, b2, b3⟩ := price_trunc_bounds _ hm
    exact ⟨b1, b2, b3⟩

/-- C3 (counterexample): with the hash oracle constantly 101 the Wheat
entry has modal price 2001, price_min = int(2001 * 0.95) = 1900, while
round(2001 * 0.95) = round(1900.95) = 1901: price_min is not the
rounding that the claim states. -/
theorem claim_c3_counterexample :
    (demoMandiData (fun _ => 101) "Sultanpur, Uttar Pradesh" "28.4777.5"
        "2026-10-12").head?.map (fun e => (e.modal_price, e.price_min)) =
      some (2001, 1900) ∧
    pyRoundInt ((2001 : ℚ) * (19/20)) = 1901 ∧ (1900 : ℤ) ≠ 1901 := by
  refine ⟨?_, ?_, by decide⟩
  · with_unfolding_all decide
  · with_unfolding_all decide

theorem claim_c3_amended_witness :
    ((demoMandiData (fun _ => 101) "Sultanpur, Uttar Pradesh" "28.4777.5"
        "2026-10-12").length = 8) ∧
    (⟨"Sultanpur, Uttar Pradesh Mandi", "Wheat", 2001, 1900, 2101, 26,
        "2026-10-12"⟩ : MandiEntry).price_min ≤ 2001 := by
  have h := claim_c3_amended (fun _ => 101) "Sultanpur, Uttar Pradesh" "28.4777.5"
    "2026-10-12"
  refine ⟨h.1, ?_⟩
  have hmem : (⟨"Sultanpur, Uttar Pradesh Mandi", "Wheat", 2001, 1900, 2101, 26,
      "2026-10-12"⟩ : MandiEntry) ∈
      demoMandiData (fun _ => 101) "Sultanpur, Uttar Pradesh" "28.4777.5"
        "2026-10-12" := by
    with_unfolding_all decide
  exact (h.2 _ hmem).1

/-- C9: when the reference dataset failed to load, predict answers
every query and every top_k with the single fixed fallback entry
(label "wheat", confidence 0.5) and cannot raise. -/
theorem claim_c9_unloaded_fallback (q : List ℚ) (topk : ℕ) :
    predict none q topk = [("wheat", 1/2)] := rfl

/-- C7: the weather estimator is a deterministic function of latitude,
longitude and the calendar month: two evaluations under ambient clocks
that agree on the month produce identical weather outputs. -/
theorem claim_c7_deterministic (sine cosine : ℚ → ℚ) (n1 n2 : DateTimeNow)
    (lat lon : ℚ) (h : n1.month = n2.month) :
    estimateWeatherAt sine cosine n1 lat lon = estimateWeatherAt sine cosine n2 lat lon := by
  unfold estimateWeatherAt
  rw [h]

theorem claim_c7_witness :
    estimateWeatherAt (fun _ => 0) (fun _ => 0) ⟨2026, 2, 1, 0, 0⟩ (2847/100) (155/2) =
      estimateWeatherAt (fun _ => 0) (fun _ => 0) ⟨2026, 2, 28, 23, 59⟩ (2847/100) (155/2) :=
  claim_c7_deterministic (fun _ => 0) (fun _ => 0) ⟨2026, 2, 1, 0, 0⟩
    ⟨2026, 2, 28, 23, 59⟩ (2847/100) (155/2) rfl

/-- C5: a 200 response whose soil_properties object lacks both the pH
and the N field is treated as a miss: the parser yields None, and with
both the district and the gridded endpoints returning such bodies the
whole live fetch resolves to None with the cache untouched, so the
soil domain falls through to the next (offline) tier. -/
theorem claim_c5_missing_ph_n (f : Feature) (rest : List Feature)
    (hph : getProp f.soil_properties "pH" = none)
    (hn : getProp f.soil_properties "N" = none) :
    extractSoilProperties ⟨f :: rest⟩ = none ∧
    ∀ (env : SisEnv) (cache : SoilCache SisSoil) (lat lon : ℚ),
      env.districtResp = some ⟨f :: rest⟩ →
      env.griddedResp = some ⟨f :: rest⟩ →
      cacheLookup cache (pyRound 2 lat, pyRound 2 lon) = none →
      (fetchSisindiaSoil env cache lat lon).result = none ∧
      (fetchSisindiaSoil env cache lat lon).cache = cache := by
  have hext : extractSoilProperties ⟨f :: rest⟩ = none := by
    unfold extractSoilProperties
    by_cases hemp : f.soil_properties.isEmpty
    · simp [hemp]
    · simp [hemp, hph, hn]
  refine ⟨hext, ?_⟩
  intro env cache lat lon hd hg hc
  unfold fetchSisindiaSoil
  split
  · exact ⟨rfl, rfl⟩
  · rw [hc]
    unfold queryDistrict queryGridded
    rw [hd, hg]
    simp only [hext]
    exact ⟨trivial, trivial⟩

theorem claim_c5_witness :
    getProp [("OC", (1:ℚ)/2)] "pH" = none ∧
    extractSoilProperties ⟨[⟨[("OC", (1:ℚ)/2)]⟩]⟩ = none ∧
    (fetchSisindiaSoil ⟨some ⟨[⟨[("OC", (1:ℚ)/2)]⟩]⟩, some ⟨[⟨[("OC", (1:ℚ)/2)]⟩]⟩⟩
        [] 28 77).result = none := by
  have h := claim_c5_missing_ph_n ⟨[("OC", (1:ℚ)/2)]⟩ [] (by decide) (by decide)
  exact ⟨by decide, h.1, (h.2 ⟨some ⟨[⟨[("OC", (1:ℚ)/2)]⟩]⟩, some ⟨[⟨[("OC", (1:ℚ)/2)]⟩]⟩⟩
    [] 28 77 rfl rfl rfl).1⟩

/-- C10: for a coordinate outside the SISIndia India bounds the live
soil fetch returns None immediately: no network query is issued, the
cache is neither read nor written (returned unchanged), and the fused
soil source is therefore the offline database lookup. -/
theorem claim_c10_out_of_bounds (env : SisEnv) (cache : SoilCache SisSoil)
    (lat lon : ℚ)
    (h : ¬ (latMinIndia ≤ lat ∧ lat ≤ latMaxIndia ∧
            lonMinIndia ≤ lon ∧ lon ≤ lonMaxIndia)) :
    fetchSisindiaSoil env cache lat lon = ⟨none, cache, 0⟩ ∧
    ∀ (o : MathOracle) (regions : List Region) (dflt : Region),
      chooseSoil (fetchSisindiaSoil env cache lat lon).result
          (lookupSoil o regions dflt lat lon) =
        Sum.inr (lookupSoil o regions dflt lat lon) := by
  have hfetch : fetchSisindiaSoil env cache lat lon = ⟨none, cache, 0⟩ := by
    unfold fetchSisindiaSoil
    rw [if_pos h]
  refine ⟨hfetch, ?_⟩
  intro o regions dflt
  rw [hfetch]
  rfl

theorem claim_c10_witness :
    ¬ (latMinIndia ≤ (50:ℚ) ∧ (50:ℚ) ≤ latMaxIndia ∧
        lonMinIndia ≤ (77:ℚ) ∧ (77:ℚ) ≤ lonMaxIndia) ∧
    (fetchSisindiaSoil ⟨none, none⟩ [] 50 77) = ⟨none, [], 0⟩ := by
  have hbound : ¬ (latMinIndia ≤ (50:ℚ) ∧ (50:ℚ) ≤ latMaxIndia ∧
      lonMinIndia ≤ (77:ℚ) ∧ (77:ℚ) ≤ lonMaxIndia) := by
    with_unfolding_all decide
  exact ⟨hbound, (claim_c10_out_of_bounds ⟨none, none⟩ [] 50 77 hbound).1⟩

/-- pyRound is within half a unit in the last kept decimal digit. -/
theorem pyRound_close (nd : ℕ) (q : ℚ) : |pyRound nd q - q| ≤ 1 / (2 * 10 ^ nd) := by
  unfold pyRound
  have hpow : (0:ℚ) < 10 ^ nd := by positivity
  have h := pyRoundInt_le (q * 10 ^ nd)
  have heq : (pyRoundInt (q * 10 ^ nd) : ℚ) / 10 ^ nd - q =
      ((pyRoundInt (q * 10 ^ nd) : ℚ) - q * 10 ^ nd) / 10 ^ nd := by
    field_simp
    ring
  rw [heq, abs_div, abs_of_pos hpow]
  have hdiv := (div_le_div_iff_of_pos_right hpow).mpr h
  calc |(pyRoundInt (q * 10 ^ nd) : ℚ) - q * 10 ^ nd| / 10 ^ nd
      ≤ (1/2) / 10 ^ nd := hdiv
    _ = 1 / (2 * 10 ^ nd) := by ring

/-- C6: for the coordinate (28.47, 77.50) with all live providers
failing, the estimated February temperature is strictly below the
estimated May temperature, for every sine oracle bounded by one at the
micro-variation argument of this coordinate. -/
theorem claim_c6_feb_lt_may (sine cosine : ℚ → ℚ)
    (hs : |sine (283589/1000)| ≤ 1) :
    (estimateWeather sine cosine (2847/100) (155/2) 2).temp <
      (estimateWeather sine cosine (2847/100) (155/2) 5).temp := by
  have habs : |(2847/100 : ℚ)| = 2847/100 := abs_of_pos (by norm_num)
  have e2 : (estimateWeather sine cosine (2847/100) (155/2) 2).temp =
      max 5 (min 48 (pyRound 1 (23683/2000 + sine (283589/1000) * (3/2)))) := by
    unfold estimateWeather
    norm_num [habs]
  have e5 : (estimateWeather sine cosine (2847/100) (155/2) 5).temp =
      max 5 (min 48 (pyRound 1 (47683/2000 + sine (283589/1000) * (3/2)))) := by
    unfold estimateWeather
    norm_num [habs]
  obtain ⟨l2, r2⟩ := abs_le.mp (pyRound_close 1 (23683/2000 + sine (283589/1000) * (3/2)))
  obtain ⟨l5, r5⟩ := abs_le.mp (pyRound_close 1 (47683/2000 + sine (283589/1000) * (3/2)))
  obtain ⟨la, ra⟩ := abs_le.mp hs
  have h2lo : (5:ℚ) ≤ pyRound 1 (23683/2000 + sine (283589/1000) * (3/2)) := by
    norm_num at l2 r2 ⊢
    linarith
  have h2hi : pyRound 1 (23683/2000 + sine (283589/1000) * (3/2)) ≤ 48 := by
    norm_num at l2 r2 ⊢
    linarith
  have h5lo : (5:ℚ) ≤ pyRound 1 (47683/2000 + sine (283589/1000) * (3/2)) := by
    norm_num at l5 r5 ⊢
    linarith
  have h5hi : pyRound 1 (47683/2000 + sine (283589/1000) * (3/2)) ≤ 48 := by
    norm_num at l5 r5 ⊢
    linarith
  rw [e2, e5, min_eq_right h2hi, max_eq_right h2lo, min_eq_right h5hi, max_eq_right h5lo]
  norm_num at l2 r2 l5 r5 ⊢
  linarith

theorem claim_c6_witness :
    |(fun _ : ℚ => (0:ℚ)) (283589/1000)| ≤ 1 ∧
    (estimateWeather (fun _ => 0) (fun _ => 0) (2847/100) (155/2) 2).temp <
      (estimateWeather (fun _ => 0) (fun _ => 0) (2847/100) (155/2) 5).temp := by
  have hb : |(fun _ : ℚ => (0:ℚ)) (283589/1000)| ≤ 1 := by
    with_unfolding_all decide
  exact ⟨hb, claim_c6_feb_lt_may (fun _ => 0) (fun _ => 0) hb⟩

/-- Unfolding of cacheLookup over a cons cell. -/
theorem cacheLookup_cons {α : Type} (k0 : ℚ × ℚ) (v0 : α) (tl : SoilCache α)
    (k' : ℚ × ℚ) :
    cacheLookup ((k0, v0) :: tl) k' = if k0 = k' then some v0 else cacheLookup tl k' := by
  by_cases h : k0 = k'
  · simp [cacheLookup, List.find?_cons, h]
  · simp [cacheLookup, List.find?_cons, h]

/-- Python dict assignment: lookup of the assigned key finds the new
value, lookup of any other key is unchanged. -/
theorem cacheLookup_dictSet {α : Type} (c : SoilCache α) (k : ℚ × ℚ) (v : α)
    (k' : ℚ × ℚ) :
    cacheLookup (dictSet c k v) k' =
      if k' = k then some v else cacheLookup c k' := by
  induction c with
  | nil =>
    by_cases h : k' = k
    · subst h
      simp [dictSet, cacheLookup_cons]
    · have h' : ¬ (k = k') := fun he => h he.symm
      simp [dictSet, cacheLookup_cons, h, h', cacheLookup]
  | cons p rest ih =>
    obtain ⟨k0, v0⟩ := p
    by_cases h0 : k0 = k
    · subst h0
      by_cases h : k0 = k'
      · subst h
        simp [dictSet, cacheLookup_cons]
      · have h' : ¬ (k' = k0) := fun he => h he.symm
        simp [dictSet, cacheLookup_cons, h, h']
    · by_cases h : k0 = k'
      · subst h
        have h' : ¬ (k0 = k) := h0
        simp [dictSet, cacheLookup_cons, h', h0]
      · simp [dictSet, cacheLookup_cons, h0, h, ih]

/-- A key absent from the key list is not found. -/
theorem cacheLookup_eq_none_of_not_mem {α : Type} (c : SoilCache α) (k : ℚ × ℚ)
    (h : k ∉ c.map Prod.fst) : cacheLookup c k = none := by
  induction c with
  | nil => rfl
  | cons hd tl ih =>
    obtain ⟨k0, v0⟩ := hd
    simp only [List.map_cons, List.mem_cons] at h
    push_neg at h
    rw [cacheLookup_cons, if_neg (fun he => h.1 he.symm)]
    exact ih h.2

/-- Lookup on a cons of a different key skips the head. -/
theorem cacheLookup_cons_ne {α : Type} (hd : (ℚ × ℚ) × α) (tl : SoilCache α)
    (k : ℚ × ℚ) (h : k ≠ hd.1) :
    cacheLookup (hd :: tl) k = cacheLookup tl k := by
  obtain ⟨k0, v0⟩ := hd
  rw [cacheLookup_cons, if_neg (fun he => h he.symm)]

/-- C8: a put on the capacity-limited soil cache.  When the cache is
exactly at capacity, the single earliest-inserted key is evicted (the
new key is stored, any other surviving key still resolves as before,
and the evicted head key no longer resolves); a put on a non-full
cache evicts nothing. -/
theorem claim_c8_cache_eviction {α : Type} (c : SoilCache α) (k : ℚ × ℚ) (v : α)
    (hnd : (c.map Prod.fst).Nodup) :
    (c.length = maxCacheSize →
       cacheLookup (setCached c k v) k = some v ∧
       (∀ hd, c.head? = some hd →
         (hd.1 ≠ k → cacheLookup (setCached c k v) hd.1 = none) ∧
         (∀ k', k' ≠ k → k' ≠ hd.1 →
            cacheLookup (setCached c k v) k' = cacheLookup c k'))) ∧
    (c.length < maxCacheSize →
       cacheLookup (setCached c k v) k = some v ∧
       ∀ k', k' ≠ k → cacheLookup (setCached c k v) k' = cacheLookup c k') := by
  constructor
  · intro hfull
    have hset : setCached c k v = dictSet (c.drop 1) k v := by
      unfold setCached
      rw [if_pos (le_of_eq hfull.symm)]
    constructor
    · rw [hset, cacheLookup_dictSet, if_pos rfl]
    · intro hd hhd
      obtain ⟨tl, rfl⟩ : ∃ tl, c = hd :: tl := by
        cases c with
        | nil => simp at hhd
        | cons x tl =>
          simp only [List.head?] at hhd
          exact ⟨tl, by rw [Option.some.injEq] at hhd; rw [hhd]⟩
      have hdrop : (hd :: tl).drop 1 = tl := rfl
      have hnotin : hd.1 ∉ tl.map Prod.fst := by
        simp only [List.map_cons, List.nodup_cons] at hnd
        exact hnd.1
      constructor
      · intro hne
        rw [hset, hdrop, cacheLookup_dictSet, if_neg hne]
        exact cacheLookup_eq_none_of_not_mem tl hd.1 hnotin
      · intro k' hk1 hk2
        rw [hset, hdrop, cacheLookup_dictSet, if_neg hk1]
        exact (cacheLookup_cons_ne hd tl k' hk2).symm
  · intro hlt
    have hset : setCached c k v = dictSet c k v := by
      unfold setCached
      rw [if_neg (by omega)]
    constructor
    · rw [hset, cacheLookup_dictSet, if_pos rfl]
    · intro k' hk
      rw [hset, cacheLookup_dictSet, if_neg hk]

theorem claim_c8_witness :
    (c500.map Prod.fst).Nodup ∧ c500.length = maxCacheSize ∧
    cacheLookup (setCached c500 ((777 : ℚ), 0) 42) ((777 : ℚ), 0) = some 42 := by
  have hinj : Function.Injective (fun i : ℕ => ((i : ℚ), (0 : ℚ))) := by
    intro a b hab
    simpa using hab
  have hnd : (c500.map Prod.fst).Nodup := by
    have hmm : c500.map Prod.fst =
        (List.range 500).map (fun i : ℕ => ((i : ℚ), (0 : ℚ))) := by
      simp only [c500, List.map_map]
      rfl
    rw [hmm]
    exact (List.nodup_range 500).map hinj
  have hlen : c500.length = maxCacheSize := by
    simp only [c500, List.length_map, List.length_range, maxCacheSize]
  exact ⟨hnd, hlen, ((claim_c8_cache_eviction c500 ((777 : ℚ), 0) 42 hnd).1 hlen).1⟩

/-- Characterization of the strict-less minimum fold started from an
accumulator: the final distance is the running minimum, and the final
region is either the untouched accumulator or the first region of the
list attaining a strictly smaller distance. -/
theorem nearestStep_foldl (f : Region → ℚ) :
    ∀ (l : List Region) (b : Region) (bd : ℚ),
      ∃ B : Region × ℚ,
        l.foldl (nearestStep f) (some (b, bd)) = some B ∧
        B.2 = (l.map f).foldl min bd ∧
        (B = (b, bd) ∨
          (B.2 < bd ∧ l.find? (fun r => decide (f r = B.2)) = some B.1)) := by
  intro l
  induction l with
  | nil =>
    intro b bd
    exact ⟨(b, bd), rfl, rfl, Or.inl rfl⟩
  | cons r t ih =>
    intro b bd
    by_cases hr : f r < bd
    · have hstep : nearestStep f (some (b, bd)) r = some (r, f r) := by
        simp [nearestStep, hr]
      obtain ⟨B, hB1, hB2, hB3⟩ := ih r (f r)
      refine ⟨B, ?_, ?_, ?_⟩
      · rw [List.foldl_cons, hstep]
        exact hB1
      · rw [List.map_cons, List.foldl_cons, min_eq_right (le_of_lt hr)]
        exact hB2
      · rcases hB3 with he | ⟨hlt, hfind⟩
        · right
          subst he
          refine ⟨hr, ?_⟩
          rw [List.find?_cons_of_pos _ (by simp)]
        · right
          refine ⟨lt_trans hlt hr, ?_⟩
          rw [List.find?_cons_of_neg _ (by simp; exact fun he => absurd he.symm (ne_of_lt hlt))]
          exact hfind
    · have hstep : nearestStep f (some (b, bd)) r = some (b, bd) := by
        simp [nearestStep, hr]
      obtain ⟨B, hB1, hB2, hB3⟩ := ih b bd
      refine ⟨B, ?_, ?_, ?_⟩
      · rw [List.foldl_cons, hstep]
        exact hB1
      · rw [List.map_cons, List.foldl_cons, min_eq_left (not_lt.mp hr)]
        exact hB2
      · rcases hB3 with he | ⟨hlt, hfind⟩
        · exact Or.inl he
        · right
          refine ⟨hlt, ?_⟩
          have hne : f r ≠ B.2 := by
            have : bd ≤ f r := not_lt.mp hr
            exact fun he => absurd (he ▸ hlt) (not_lt.mpr this)
          rw [List.find?_cons_of_neg _ (by simpa using hne)]
          exact hfind

/-- The left fold of min equals the option-elim of List.min?. -/
theorem foldl_min_elim (l : List ℚ) : ∀ a : ℚ, l.foldl min a = (l.min?).elim a (min a) := by
  induction l with
  | nil => intro a; rfl
  | cons b l ih =>
    intro a
    rw [List.foldl_cons, ih (min a b), List.min?_cons]
    cases hm : l.min? with
    | none => simp [hm]
    | some m => simp [hm, min_assoc]

/-- C2: the offline soil lookup computes exactly the selection the
claim describes: the first region whose bounding box contains the
coordinate; otherwise the region whose box-center haversine distance
(Earth radius 6371 km) is minimal, first in declaration order among
ties, accepted only when that distance is strictly under 150 km;
otherwise the generic default profile. -/
theorem claim_c2_lookup_soil (o : MathOracle) (regions : List Region)
    (dflt : Region) (lat lon : ℚ) :
    lookupSoil o regions dflt lat lon = lookupSoilSpec o regions dflt lat lon := by
  unfold lookupSoil lookupSoilSpec
  cases hfind : regions.find? (inBox lat lon) with
  | some r => rfl
  | none =>
      cases regions with
      | nil => rfl
      | cons r t =>
          have hone : nearestFold o lat lon (r :: t) =
              t.foldl (nearestStep (regionDist o lat lon))
                (some (r, regionDist o lat lon r)) := by
            unfold nearestFold
            rw [List.foldl_cons]
            rfl
          obtain ⟨⟨bReg, bDist⟩, hB1, hB2, hB3⟩ :=
            nearestStep_foldl (regionDist o lat lon) t r (regionDist o lat lon r)
          simp only at hB2 hB3
          have hmin : ((r :: t).map (regionDist o lat lon)).min? = some bDist := by
            rw [List.map_cons, List.min?_cons, hB2, foldl_min_elim]
          rcases hB3 with he | ⟨hlt, hfindB⟩
          · have hbr : bReg = r := congrArg Prod.fst he
            have hbd : bDist = regionDist o lat lon r := congrArg Prod.snd he
            subst hbr
            subst hbd
            have hhead : List.find?
                (fun x => decide (regionDist o lat lon x = regionDist o lat lon bReg))
                (bReg :: t) = some bReg := by
              rw [List.find?_cons_of_pos _ (by simp)]
            simp only [hone, hB1, hmin, hhead]
          · have hskip : List.find?
                (fun x => decide (regionDist o lat lon x = bDist)) (r :: t) = some bReg := by
              rw [List.find?_cons_of_neg _
                (by simp; exact fun he => absurd he.symm (ne_of_lt hlt))]
              exact hfindB
            simp only [hone, hB1, hmin, hskip]

/-! ## Crop score accumulation lemmas -/

theorem sumForLabel_nil (l : String) : sumForLabel [] l = 0 := rfl

theorem sumForLabel_cons (p : String × ℚ) (vs : List (String × ℚ)) (l : String) :
    sumForLabel (p :: vs) l =
      if p.1 = l then p.2 + sumForLabel vs l else sumForLabel vs l := by
  by_cases h : p.1 = l
  · simp [sumForLabel, List.filter_cons, h]
  · simp [sumForLabel, List.filter_cons, h]

theorem assocLookup_addScore (acc : List (String × ℚ)) (l : String) (w : ℚ)
    (l' : String) :
    assocLookup (addScore acc l w) l' =
      if l' = l then some ((assocLookup acc l).getD 0 + w)
      else assocLookup acc l' := by
  induction acc with
  | nil =>
    by_cases h : l' = l
    · subst h
      simp [addScore, assocLookup, List.find?_cons]
    · have h' : ¬ (l = l') := fun he => h he.symm
      simp [addScore, assocLookup, List.find?_cons, h, h']
  | cons p rest ih =>
    obtain ⟨k, s⟩ := p
    by_cases hk : k = l
    · subst hk
      by_cases h : l' = k
      · subst h
        simp [addScore, assocLookup, List.find?_cons]
      · have h' : ¬ (k = l') := fun he => h he.symm
        simp [addScore, assocLookup, List.find?_cons, h, h']
    · by_cases h : l' = l
      · subst h
        by_cases h2 : k = l'
        · exact absurd h2 hk
        · simp only [addScore, if_neg hk]
          simp only [assocLookup, List.find?_cons] at ih ⊢
          rw [show (decide (k = l') = false) from decide_eq_false h2]
          simpa [h2] using ih
      · by_cases h2 : k = l'
        · subst h2
          simp [addScore, assocLookup, List.find?_cons, hk, h]
        · simp only [addScore, if_neg hk]
          simp only [assocLookup, List.find?_cons] at ih ⊢
          rw [show (decide (k = l') = false) from decide_eq_false h2]
          simpa [h2, h] using ih

theorem sum_addScore (acc : List (String × ℚ)) (l : String) (w : ℚ) :
    ((addScore acc l w).map Prod.snd).sum = (acc.map Prod.snd).sum + w := by
  induction acc with
  | nil => simp [addScore]
  | cons p rest ih =>
    obtain ⟨k, s⟩ := p
    by_cases hk : k = l
    · simp [addScore, hk]
      ring
    · simp [addScore, hk, ih]
      ring

theorem keys_addScore (acc : List (String × ℚ)) (l : String) (w : ℚ) :
    (addScore acc l w).map Prod.fst =
      if l ∈ acc.map Prod.fst then acc.map Prod.fst
      else acc.map Prod.fst ++ [l] := by
  induction acc with
  | nil => simp [addScore]
  | cons p rest ih =>
    obtain ⟨k, s⟩ := p
    by_cases hk : k = l
    · subst hk
      simp [addScore]
    · have hk' : ¬ (l = k) := fun he => hk he.symm
      by_cases hmem : l ∈ rest.map Prod.fst
      · simp [addScore, hk, hk', hmem, ih]
      · simp [addScore, hk, hk', hmem, ih]

theorem nodup_keys_addScore (acc : List (String × ℚ)) (l : String) (w : ℚ)
    (h : (acc.map Prod.fst).Nodup) : ((addScore acc l w).map Prod.fst).Nodup := by
  rw [keys_addScore]
  by_cases hmem : l ∈ acc.map Prod.fst
  · rwa [if_pos hmem]
  · rw [if_neg hmem]
    refine List.Nodup.append h (List.nodup_singleton l) ?_
    intro a ha hb
    rw [List.mem_singleton] at hb
    subst hb
    exact hmem ha

/-- The value a label carries after folding a vote list into the
crop_scores accumulator: old value plus the label's vote sum, present
exactly when it was present or received a vote. -/
theorem assocLookup_foldl (vs : List (String × ℚ)) :
    ∀ (acc : List (String × ℚ)) (l' : String),
      assocLookup (vs.foldl (fun a p => addScore a p.1 p.2) acc) l' =
        match assocLookup acc l' with
        | some s => some (s + sumForLabel vs l')
        | none =>
            if l' ∈ vs.map Prod.fst then some (sumForLabel vs l') else none := by
  induction vs with
  | nil =>
    intro acc l'
    cases h : assocLookup acc l' with
    | some s => simp [h, sumForLabel_nil]
    | none => simp [h]
  | cons p vs ih =>
    intro acc l'
    rw [List.foldl_cons, ih (addScore acc p.1 p.2) l', assocLookup_addScore]
    by_cases hp : l' = p.1
    · subst hp
      rw [if_pos rfl, sumForLabel_cons, if_pos rfl]
      cases h : assocLookup acc p.1 with
      | some s =>
        simp
        ring
      | none =>
        simp
    · have hp' : ¬ (p.1 = l') := fun he => hp he.symm
      rw [if_neg hp, sumForLabel_cons, if_neg hp']
      cases h : assocLookup acc l' with
      | some s => simp
      | none =>
        by_cases hm : l' ∈ List.map Prod.fst vs
        · simp [List.mem_cons, hp, hm]
        · simp [List.mem_cons, hp, hm]

/-- Folding votes adds their total weight to the accumulator total. -/
theorem sum_foldl_addScore (vs : List (String × ℚ)) :
    ∀ acc : List (String × ℚ),
      ((vs.foldl (fun a p => addScore a p.1 p.2) acc).map Prod.snd).sum =
        (acc.map Prod.snd).sum + (vs.map Prod.snd).sum := by
  induction vs with
  | nil => intro acc; simp
  | cons p vs ih =>
    intro acc
    rw [List.foldl_cons, ih, sum_addScore]
    simp
    ring

/-- Folding votes preserves distinctness of the accumulator keys. -/
theorem nodup_keys_foldl (vs : List (String × ℚ)) :
    ∀ acc : List (String × ℚ), (acc.map Prod.fst).Nodup →
      ((vs.foldl (fun a p => addScore a p.1 p.2) acc).map Prod.fst).Nodup := by
  induction vs with
  | nil => intro acc h; exact h
  | cons p vs ih =>
    intro acc h
    rw [List.foldl_cons]
    exact ih _ (nodup_keys_addScore acc p.1 p.2 h)

/-- In a key-distinct association list, membership determines lookup. -/
theorem assocLookup_of_mem (c : List (String × ℚ)) (p : String × ℚ)
    (hmem : p ∈ c) (hnd : (c.map Prod.fst).Nodup) :
    assocLookup c p.1 = some p.2 := by
  induction c with
  | nil => cases hmem
  | cons hd tl ih =>
    rw [List.mem_cons] at hmem
    rw [List.map_cons, List.nodup_cons] at hnd
    rcases hmem with he | hm
    · subst he
      simp [assocLookup, List.find?_cons]
    · have hne : hd.1 ≠ p.1 := by
        intro he
        exact hnd.1 (he ▸ List.mem_map_of_mem Prod.fst hm)
      simp only [assocLookup, List.find?_cons]
      rw [show (decide (hd.1 = p.1) = false) from decide_eq_false hne]
      exact ih hm hnd.2

/-- Lookup success yields membership. -/
theorem mem_of_assocLookup (c : List (String × ℚ)) (l : String) (s : ℚ)
    (h : assocLookup c l = some s) : (l, s) ∈ c := by
  induction c with
  | nil => simp [assocLookup] at h
  | cons hd tl ih =>
    obtain ⟨k, v⟩ := hd
    simp only [assocLookup, List.find?_cons] at h
    by_cases he : k = l
    · rw [show (decide (k = l) = true) from decide_eq_true he] at h
      simp at h
      subst he
      subst h
      exact List.mem_cons_self (k, v) tl
    · rw [show (decide (k = l) = false) from decide_eq_false he] at h
      exact List.mem_cons_of_mem (k, v) (ih h)

theorem labelWeight_eq (d : CropData) (q : List ℚ) (topk : ℕ) (l : String) :
    labelWeight d q topk l = sumForLabel (neighbourVotes d q topk) l := rfl

theorem cropScores_keys_nodup (d : CropData) (q : List ℚ) (topk : ℕ) :
    ((cropScores d q topk).map Prod.fst).Nodup :=
  nodup_keys_foldl _ [] (by simp)

/-- Every crop_scores entry carries exactly its label's accumulated
vote weight, and its label received at least one vote. -/
theorem cropScores_entry (d : CropData) (q : List ℚ) (topk : ℕ) (p : String × ℚ)
    (hp : p ∈ cropScores d q topk) :
    p.2 = labelWeight d q topk p.1 ∧
    p.1 ∈ (neighbourVotes d q topk).map Prod.fst := by
  have hnd := cropScores_keys_nodup d q topk
  have hl := assocLookup_of_mem _ p hp hnd
  rw [show cropScores d q topk =
      (neighbourVotes d q topk).foldl (fun a p => addScore a p.1 p.2) [] from rfl,
    assocLookup_foldl] at hl
  by_cases hm : p.1 ∈ (neighbourVotes d q topk).map Prod.fst
  · simp only [show assocLookup [] p.1 = none from rfl, if_pos hm] at hl
    rw [Option.some.injEq] at hl
    exact ⟨by rw [labelWeight_eq, hl], hm⟩
  · simp [show assocLookup [] p.1 = none from rfl, hm] at hl

theorem cropScores_sum (d : CropData) (q : List ℚ) (topk : ℕ) :
    ((cropScores d q topk).map Prod.snd).sum = totalWeight d q topk := by
  have h := sum_foldl_addScore (neighbourVotes d q topk) []
  simpa [totalWeight, cropScores] using h

/-- Every voted label appears among the crop_scores entries. -/
theorem cropScores_mem_key (d : CropData) (q : List ℚ) (topk : ℕ) (l : String)
    (hm : l ∈ (neighbourVotes d q topk).map Prod.fst) :
    (l, sumForLabel (neighbourVotes d q topk) l) ∈ cropScores d q topk := by
  apply mem_of_assocLookup
  rw [show cropScores d q topk =
      (neighbourVotes d q topk).foldl (fun a p => addScore a p.1 p.2) [] from rfl,
    assocLookup_foldl]
  simp [show assocLookup [] l = none from rfl, hm]

theorem sortedCrops_perm (d : CropData) (q : List ℚ) (topk : ℕ) :
    (sortedCrops d q topk).Perm (cropScores d q topk) :=
  List.perm_insertionSort _ _

theorem sortedCrops_sum (d : CropData) (q : List ℚ) (topk : ℕ) :
    ((sortedCrops d q topk).map Prod.snd).sum = totalWeight d q topk := by
  rw [← cropScores_sum]
  exact ((sortedCrops_perm d q topk).map Prod.snd).sum_eq

theorem sortedCrops_sorted (d : CropData) (q : List ℚ) (topk : ℕ) :
    (sortedCrops d q topk).Sorted scoreGE :=
  List.sorted_insertionSort scoreGE _

/-- getD of a list of nonnegative values with nonnegative default. -/
theorem getD_nonneg : ∀ (l : List ℚ) (i : ℕ), (∀ x ∈ l, 0 ≤ x) → 0 ≤ l.getD i 0
  | [], _, _ => le_refl 0
  | x :: xs, 0, h => h x (List.mem_cons_self x xs)
  | x :: xs, i + 1, h => getD_nonneg xs i (fun y hy => h y (List.mem_cons_of_mem x hy))

theorem distances_mem_nonneg (d : CropData) (q : List ℚ) :
    ∀ x ∈ distances d q, 0 ≤ x := by
  intro x hx
  obtain ⟨r, _, rfl⟩ := List.mem_map.mp hx
  exact ratSqrt_nonneg _

theorem distances_getD_nonneg (d : CropData) (q : List ℚ) (i : ℕ) :
    0 ≤ (distances d q).getD i 0 :=
  getD_nonneg _ i (distances_mem_nonneg d q)

/-- Every neighbour vote weight is strictly positive. -/
theorem votes_snd_pos (d : CropData) (q : List ℚ) (topk : ℕ) :
    ∀ p ∈ neighbourVotes d q topk, 0 < p.2 := by
  intro p hp
  obtain ⟨i, hi, rfl⟩ := List.mem_map.mp hp
  clear hi
  have h0 := distances_getD_nonneg d q i
  have hpos : 0 < (distances d q).getD i 0 + epsWeight := by
    unfold epsWeight
    linarith
  exact one_div_pos.mpr hpos

theorem labelWeight_nonneg (d : CropData) (q : List ℚ) (topk : ℕ) (l : String) :
    0 ≤ labelWeight d q topk l := by
  rw [labelWeight_eq]
  apply List.sum_nonneg
  intro x hx
  obtain ⟨p, hp, rfl⟩ := List.mem_map.mp hx
  exact le_of_lt (votes_snd_pos d q topk p (List.mem_of_mem_filter hp))

theorem totalWeight_nonneg (d : CropData) (q : List ℚ) (topk : ℕ) :
    0 ≤ totalWeight d q topk := by
  apply List.sum_nonneg
  intro x hx
  obtain ⟨p, hp, rfl⟩ := List.mem_map.mp hx
  exact le_of_lt (votes_snd_pos d q topk p hp)

/-- C1 (amended): every returned confidence equals the rounded, capped
quotient of that label's accumulated inverse-distance vote weight by
the total weight over ALL candidate labels of the over-sampled
neighbour set (not only the returned top-k set). -/
theorem claim_c1_amended (d : CropData) (q : List ℚ) (topk : ℕ) (l : String) (c : ℚ)
    (hmem : (l, c) ∈ predict (some d) q topk) :
    c = pyRound 2 (min (labelWeight d q topk l / totalWeight d q topk) 1) := by
  unfold predict predictLoaded at hmem
  obtain ⟨p, hp, he⟩ := List.mem_map.mp hmem
  have hp' : p ∈ sortedCrops d q topk := List.mem_of_mem_take hp
  have hcrop : p ∈ cropScores d q topk := (sortedCrops_perm d q topk).subset hp'
  have hentry := cropScores_entry d q topk p hcrop
  have h1 : p.1 = l := congrArg Prod.fst he
  have h2 : pyRound 2 (min (p.2 / ((sortedCrops d q topk).map Prod.snd).sum) 1) = c :=
    congrArg Prod.snd he
  rw [← h2, sortedCrops_sum, hentry.1, h1]

theorem pyRound2_mem_unit (x : ℚ) (h0 : 0 ≤ x) (h1 : x ≤ 1) :
    0 ≤ pyRound 2 x ∧ pyRound 2 x ≤ 1 := by
  unfold pyRound
  constructor
  · have := pyRoundInt_nonneg (q := x * 10 ^ 2) (by positivity)
    positivity
  · have hb : x * 10 ^ 2 ≤ ((100 : ℤ) : ℚ) := by
      push_cast
      nlinarith
    have := pyRoundInt_le_of_le hb
    rw [div_le_one (by positivity)]
    calc (pyRoundInt (x * 10 ^ 2) : ℚ) ≤ ((100 : ℤ) : ℚ) := by exact_mod_cast this
      _ = (10 : ℚ) ^ 2 := by norm_num

/-- Part 1 of the amended C4: every returned confidence lies in the
unit interval. -/
theorem predict_conf_unit (d : CropData) (q : List ℚ) (topk : ℕ) :
    ∀ p ∈ predict (some d) q topk, 0 ≤ p.2 ∧ p.2 ≤ 1 := by
  intro p hp
  unfold predict predictLoaded at hp
  obtain ⟨x, hx, rfl⟩ := List.mem_map.mp hp
  have hx' : x ∈ sortedCrops d q topk := List.mem_of_mem_take hx
  have hcrop : x ∈ cropScores d q topk := (sortedCrops_perm d q topk).subset hx'
  have hw : 0 ≤ x.2 := by
    rw [(cropScores_entry d q topk x hcrop).1]
    exact labelWeight_nonneg d q topk x.1
  have htot : 0 ≤ ((sortedCrops d q topk).map Prod.snd).sum := by
    rw [sortedCrops_sum]
    exact totalWeight_nonneg d q topk
  have hr0 : 0 ≤ min (x.2 / ((sortedCrops d q topk).map Prod.snd).sum) 1 :=
    le_min (div_nonneg hw htot) (by norm_num)
  have hr1 : min (x.2 / ((sortedCrops d q topk).map Prod.snd).sum) 1 ≤ 1 :=
    min_le_right _ _
  exact pyRound2_mem_unit _ hr0 hr1

/-- Sum of the rounded capped ratios over a list of scored labels. -/
theorem sum_round_ratio_le (T : ℚ) :
    ∀ L : List (String × ℚ),
      (L.map (fun p => pyRound 2 (min (p.2 / T) 1))).sum ≤
        (L.map Prod.snd).sum / T + (L.length : ℚ) / 200 := by
  intro L
  induction L with
  | nil => simp
  | cons p L ih =>
    have hclose := abs_le.mp (pyRound_close 2 (min (p.2 / T) 1))
    have h1 : pyRound 2 (min (p.2 / T) 1) ≤ p.2 / T + 1/200 := by
      have hmin : min (p.2 / T) 1 ≤ p.2 / T := min_le_left _ _
      have : pyRound 2 (min (p.2 / T) 1) - min (p.2 / T) 1 ≤ 1 / (2 * 10 ^ 2) := hclose.2
      norm_num at this
      linarith
    simp only [List.map_cons, List.sum_cons, List.length_cons]
    push_cast
    have hdiv : (p.2 + (L.map Prod.snd).sum) / T = p.2 / T + (L.map Prod.snd).sum / T := by
      ring
    rw [hdiv]
    linarith

/-- Part 1b of the amended C4: the returned confidences sum to at most
1 plus half a cent per returned entry. -/
theorem predict_conf_sum (d : CropData) (q : List ℚ) (topk : ℕ) :
    ((predict (some d) q topk).map Prod.snd).sum ≤ 1 + (topk : ℚ) / 200 := by
  unfold predict predictLoaded
  rw [List.map_map]
  have hmapeq : (Prod.snd ∘ fun p : String × ℚ =>
      (p.1, pyRound 2 (min (p.2 / ((sortedCrops d q topk).map Prod.snd).sum) 1))) =
      (fun p : String × ℚ =>
        pyRound 2 (min (p.2 / ((sortedCrops d q topk).map Prod.snd).sum) 1)) := rfl
  rw [hmapeq]
  have hkey := sum_round_ratio_le (((sortedCrops d q topk).map Prod.snd).sum)
    ((sortedCrops d q topk).take topk)
  have hnonneg : ∀ y ∈ (sortedCrops d q topk).map Prod.snd, 0 ≤ y := by
    intro y hy
    obtain ⟨x, hx, rfl⟩ := List.mem_map.mp hy
    rw [(cropScores_entry d q topk x ((sortedCrops_perm d q topk).subset hx)).1]
    exact labelWeight_nonneg d q topk x.1
  have hsplit : (((sortedCrops d q topk).take topk).map Prod.snd).sum +
      (((sortedCrops d q topk).drop topk).map Prod.snd).sum =
      ((sortedCrops d q topk).map Prod.snd).sum := by
    rw [← List.sum_append, ← List.map_append, List.take_append_drop]
  have hdropnn : 0 ≤ (((sortedCrops d q topk).drop topk).map Prod.snd).sum := by
    apply List.sum_nonneg
    intro y hy
    obtain ⟨x, hx, rfl⟩ := List.mem_map.mp hy
    have hx' : x ∈ sortedCrops d q topk := List.mem_of_mem_drop hx
    rw [(cropScores_entry d q topk x ((sortedCrops_perm d q topk).subset hx')).1]
    exact labelWeight_nonneg d q topk x.1
  have htotnn : 0 ≤ ((sortedCrops d q topk).map Prod.snd).sum := by
    rw [sortedCrops_sum]
    exact totalWeight_nonneg d q topk
  have hratio : (((sortedCrops d q topk).take topk).map Prod.snd).sum /
      ((sortedCrops d q topk).map Prod.snd).sum ≤ 1 := by
    rcases eq_or_lt_of_le htotnn with h0 | h0
    · rw [← h0, div_zero]
      norm_num
    · rw [div_le_one h0]
      linarith
  have hlen : ((((sortedCrops d q topk).take topk)).length : ℚ) ≤ (topk : ℚ) := by
    have := List.length_take_le topk (sortedCrops d q topk)
    exact_mod_cast this
  calc (((sortedCrops d q topk).take topk).map
        (fun p => pyRound 2 (min (p.2 / ((sortedCrops d q topk).map Prod.snd).sum) 1))).sum
      ≤ (((sortedCrops d q topk).take topk).map Prod.snd).sum /
          ((sortedCrops d q topk).map Prod.snd).sum +
          ((((sortedCrops d q topk).take topk)).length : ℚ) / 200 := hkey
    _ ≤ 1 + (topk : ℚ) / 200 := by
        have : ((((sortedCrops d q topk).take topk)).length : ℚ) / 200 ≤ (topk : ℚ) / 200 := by
          linarith
        linarith

theorem argsort_perm (ds : List ℚ) : (argsort ds).Perm (List.range ds.length) :=
  List.perm_insertionSort _ _

theorem argsort_sorted (ds : List ℚ) : (argsort ds).Sorted (distLE ds) :=
  List.sorted_insertionSort _ _

theorem mem_argsort (ds : List ℚ) (i : ℕ) : i ∈ argsort ds ↔ i < ds.length := by
  rw [(argsort_perm ds).mem_iff, List.mem_range]

/-- An index of strictly minimal distance heads the argsort. -/
theorem argsort_head_strict_min (ds : List ℚ) (i0 : ℕ) (hi0 : i0 < ds.length)
    (hmin : ∀ j, j < ds.length → j ≠ i0 → ds.getD i0 0 < ds.getD j 0) :
    ∃ rest, argsort ds = i0 :: rest := by
  cases ha : argsort ds with
  | nil =>
    exfalso
    have hl := (argsort_perm ds).length_eq
    rw [ha, List.length_range] at hl
    simp at hl
    omega
  | cons h t =>
    by_cases hh : h = i0
    · subst hh
      exact ⟨t, rfl⟩

    · exfalso
      have hmem : i0 ∈ argsort ds := (mem_argsort ds i0).mpr hi0
      rw [ha, List.mem_cons] at hmem
      rcases hmem with he | hm
      · exact hh he.symm
      · have hsorted := argsort_sorted ds
        rw [ha] at hsorted
        have hrel : distLE ds h i0 := (List.sorted_cons.mp hsorted).1 i0 hm
        have hhn : h < ds.length := by
          rw [← mem_argsort ds h, ha]
          exact List.mem_cons_self h t
        have := hmin h hhn hh
        unfold distLE at hrel
        linarith

/-- Squared differences of a list with itself sum to zero. -/
theorem zipWith_sub_self_sum : ∀ l : List ℚ,
    (List.zipWith (fun a b => (a - b) * (a - b)) l l).sum = 0
  | [] => rfl
  | x :: xs => by
      simp [List.zipWith_cons_cons, zipWith_sub_self_sum xs]

/-- sumForLabel is nonnegative over positive vote weights. -/
theorem sumForLabel_nonneg (vs : List (String × ℚ)) (l : String)
    (h : ∀ p ∈ vs, 0 ≤ p.2) : 0 ≤ sumForLabel vs l := by
  apply List.sum_nonneg
  intro x hx
  obtain ⟨p, hp, rfl⟩ := List.mem_map.mp hx
  exact h p (List.mem_of_mem_filter hp)

/-- Per-label sum bound from a uniform bound on the vote weights. -/
theorem sumForLabel_le_of_forall (vs : List (String × ℚ)) (l : String) (w : ℚ)
    (hw : 0 ≤ w) (h : ∀ p ∈ vs, p.1 = l → p.2 ≤ w) :
    sumForLabel vs l ≤ (vs.length : ℚ) * w := by
  unfold sumForLabel
  have hbound : ∀ x ∈ (vs.filter (fun p => decide (p.1 = l))).map Prod.snd, x ≤ w := by
    intro x hx
    obtain ⟨p, hp, rfl⟩ := List.mem_map.mp hx
    exact h p (List.mem_of_mem_filter hp) (by
      have := List.of_mem_filter hp
      simpa using this)
  have := List.sum_le_card_nsmul _ w hbound
  rw [List.length_map] at this
  calc ((vs.filter (fun p => decide (p.1 = l))).map Prod.snd).sum
      ≤ ((vs.filter (fun p => decide (p.1 = l))).length : ℕ) • w := this
    _ = ((vs.filter (fun p => decide (p.1 = l))).length : ℚ) * w := by
        rw [nsmul_eq_mul]
    _ ≤ (vs.length : ℚ) * w := by
        apply mul_le_mul_of_nonneg_right _ hw
        exact_mod_cast List.length_filter_le _ vs

/-- Splitting a vote sum by a label predicate. -/
theorem sum_filter_split (p : String × ℚ → Bool) : ∀ l : List (String × ℚ),
    ((l.filter p).map Prod.snd).sum + ((l.filter (fun x => !(p x))).map Prod.snd).sum =
      (l.map Prod.snd).sum
  | [] => by simp
  | x :: xs => by
      by_cases hx : p x
      · simp [List.filter_cons, hx, ← sum_filter_split p xs]
        ring
      · simp [List.filter_cons, hx, ← sum_filter_split p xs]
        ring

/-- Part 2 of the amended C4: a query identical to a reference row
that is the only row at standardized distance zero, all other rows
being at distance at least one, in a dataset of at most 100000 rows,
makes that row's label rank first with rounded confidence strictly
above one half. -/
theorem predict_exact_match (d : CropData) (q : List ℚ) (topk : ℕ) (i0 : ℕ)
    (hi0 : i0 < d.rows.length)
    (hq : (d.rows.getD i0 ⟨[], ""⟩).features = q)
    (hfar : ∀ j, j < d.rows.length → j ≠ i0 → 1 ≤ (distances d q).getD j 0)
    (hn : d.rows.length ≤ 100000)
    (htop : 1 ≤ topk) :
    ∃ c : ℚ, (predict (some d) q topk).head? =
        some ((d.rows.getD i0 ⟨[], ""⟩).label, c) ∧ 1/2 < c := by
  set L0 := (d.rows.getD i0 ⟨[], ""⟩).label with hL0
  set ds := distances d q with hds
  have hlen : ds.length = d.rows.length := List.length_map _ _
  have hi0' : i0 < ds.length := by rw [hlen]; exact hi0
  have hd0 : ds.getD i0 0 = 0 := by
    have h1 : ds.getD i0 0 = rowDist d.rows q (d.rows.getD i0 ⟨[], ""⟩) := by
      rw [hds]
      unfold distances
      rw [List.getD_eq_getElem _ _ (by simpa using hi0), List.getD_eq_getElem _ _ hi0]
      simp
    rw [h1]
    unfold rowDist
    rw [hq, zipWith_sub_self_sum, ratSqrt_zero]
  have hstrict : ∀ j, j < ds.length → j ≠ i0 → ds.getD i0 0 < ds.getD j 0 := by
    intro j hj hne
    rw [hd0]
    have := hfar j (by rwa [hlen] at hj) hne
    linarith
  obtain ⟨rest, hargs⟩ := argsort_head_strict_min ds i0 hi0' hstrict
  set K := kNeighbours topk ds.length with hK
  have hK1 : 1 ≤ K := by
    rw [hK]
    unfold kNeighbours
    have h4 : 1 ≤ topk * 4 := by omega
    have hn1 : 1 ≤ ds.length := by omega
    omega
  obtain ⟨K', hK'⟩ : ∃ K', K = K' + 1 := ⟨K - 1, by omega⟩
  have hnear : nearestIdx d q topk = i0 :: rest.take K' := by
    unfold nearestIdx
    rw [← hds, ← hK, hargs, hK', List.take_succ_cons]
  set votes := neighbourVotes d q topk with hvotes
  have hv : votes = ((L0, (1000000 : ℚ)) :: (rest.take K').map (fun i =>
      ((d.rows.getD i ⟨[], ""⟩).label, 1 / (ds.getD i 0 + epsWeight)))) := by
    rw [hvotes]
    unfold neighbourVotes
    rw [← hds, hnear, List.map_cons, hd0]
    have he : (1:ℚ) / (0 + epsWeight) = 1000000 := by norm_num [epsWeight]
    rw [he]
  set wmax : ℚ := 1000000/1000001 with hwmax
  have hvother : ∀ p ∈ votes, p.1 ≠ L0 → p.2 ≤ wmax := by
    intro p hp hne
    rw [hvotes] at hp
    unfold neighbourVotes at hp
    obtain ⟨i, hi, rfl⟩ := List.mem_map.mp hp
    have hitin : i ∈ argsort ds := by
      unfold nearestIdx at hi
      rw [← hds] at hi
      exact List.mem_of_mem_take hi
    have hilt : i < ds.length := (mem_argsort ds i).mp hitin
    have hine : i ≠ i0 := by
      intro he
      subst he
      exact hne rfl
    have hd1 : 1 ≤ ds.getD i 0 := hfar i (by rwa [hlen] at hilt) hine
    have hpos : (0:ℚ) < 1 + epsWeight := by norm_num [epsWeight]
    have hden : (1 : ℚ) + epsWeight ≤ ds.getD i 0 + epsWeight := by linarith
    have hinv := one_div_le_one_div_of_le hpos hden
    have heval : (1 : ℚ) / (1 + epsWeight) = wmax := by
      norm_num [epsWeight, hwmax]
    rw [← hds]
    calc (1 : ℚ) / (ds.getD i 0 + epsWeight) ≤ 1 / (1 + epsWeight) := hinv
      _ = wmax := heval
  have htailnn : ∀ p ∈ votes, 0 ≤ p.2 := by
    intro p hp
    exact le_of_lt (votes_snd_pos d q topk p (by rwa [← hvotes]))
  set S0 := sumForLabel votes L0 with hS0
  have hS0ge : (1000000 : ℚ) ≤ S0 := by
    rw [hS0, hv, sumForLabel_cons, if_pos rfl]
    have htl : 0 ≤ sumForLabel ((rest.take K').map (fun i =>
        ((d.rows.getD i ⟨[], ""⟩).label, 1 / (ds.getD i 0 + epsWeight)))) L0 := by
      apply sumForLabel_nonneg
      intro p hp
      obtain ⟨i, hi, rfl⟩ := List.mem_map.mp hp
      have h0 : (0:ℚ) ≤ ds.getD i 0 := by
        rw [hds]
        exact distances_getD_nonneg d q i
      have he : (0:ℚ) < epsWeight := by norm_num [epsWeight]
      have hpos : (0:ℚ) < ds.getD i 0 + epsWeight := by linarith
      exact le_of_lt (one_div_pos.mpr hpos)
    linarith
  have hwmax0 : (0:ℚ) ≤ wmax := by norm_num [hwmax]
  have hvlen : (votes.length : ℚ) ≤ 100000 := by
    have h1 : votes.length ≤ K := by
      rw [hvotes]
      unfold neighbourVotes nearestIdx
      rw [List.length_map, ← hds, ← hK]
      exact List.length_take_le _ _
    have h2 : K ≤ ds.length := by
      rw [hK]
      unfold kNeighbours
      omega
    have h3 : votes.length ≤ 100000 := by omega
    exact_mod_cast h3
  have hothers : ∀ l, l ≠ L0 → sumForLabel votes l ≤ (100000 : ℚ) * wmax := by
    intro l hl
    have hb := sumForLabel_le_of_forall votes l wmax hwmax0 (by
      intro p hp hpl
      exact hvother p hp (by rw [hpl]; exact hl))
    calc sumForLabel votes l ≤ (votes.length : ℚ) * wmax := hb
      _ ≤ 100000 * wmax := mul_le_mul_of_nonneg_right hvlen hwmax0
  set R := ((votes.filter (fun x => !(decide (x.1 = L0)))).map Prod.snd).sum with hR
  have htot : totalWeight d q topk = S0 + R := by
    have h1 : totalWeight d q topk = (votes.map Prod.snd).sum := by
      rw [hvotes]
      rfl
    rw [h1, ← sum_filter_split (fun p => decide (p.1 = L0)) votes, hS0, hR]
    rfl
  have hR0 : 0 ≤ R := by
    rw [hR]
    apply List.sum_nonneg
    intro x hx
    obtain ⟨p, hp, rfl⟩ := List.mem_map.mp hx
    exact htailnn p (List.mem_of_mem_filter hp)
  have hRle : R ≤ 100000 * wmax := by
    rw [hR]
    have hbound : ∀ x ∈ (votes.filter fun x => !(decide (x.1 = L0))).map Prod.snd,
        x ≤ wmax := by
      intro x hx
      obtain ⟨p, hp, rfl⟩ := List.mem_map.mp hx
      have hne : p.1 ≠ L0 := by
        have := List.of_mem_filter hp
        simpa using this
      exact hvother p (List.mem_of_mem_filter hp) hne
    have hs := List.sum_le_card_nsmul _ wmax hbound
    rw [List.length_map] at hs
    calc ((votes.filter fun x => !(decide (x.1 = L0))).map Prod.snd).sum
        ≤ ((votes.filter fun x => !(decide (x.1 = L0))).length : ℕ) • wmax := hs
      _ = ((votes.filter fun x => !(decide (x.1 = L0))).length : ℚ) * wmax := by
          rw [nsmul_eq_mul]
      _ ≤ (votes.length : ℚ) * wmax := by
          apply mul_le_mul_of_nonneg_right _ hwmax0
          exact_mod_cast List.length_filter_le _ votes
      _ ≤ 100000 * wmax := mul_le_mul_of_nonneg_right hvlen hwmax0
  have hcapR : R < 100000 := by
    have : (100000 : ℚ) * wmax < 100000 := by norm_num [hwmax]
    linarith
  have hkeymem : L0 ∈ votes.map Prod.fst := by
    rw [hv]
    simp
  have hmemcrop : (L0, S0) ∈ cropScores d q topk := by
    have h := cropScores_mem_key d q topk L0 (by rwa [← hvotes])
    rwa [← hvotes, ← hS0] at h
  have hmemsort : (L0, S0) ∈ sortedCrops d q topk :=
    ((sortedCrops_perm d q topk).mem_iff).mpr hmemcrop
  obtain ⟨H, tail, hsorteq⟩ : ∃ H tail, sortedCrops d q topk = H :: tail := by
    cases hs : sortedCrops d q topk with
    | nil =>
      rw [hs] at hmemsort
      cases hmemsort
    | cons a b => exact ⟨a, b, rfl⟩
  have hsorted := sortedCrops_sorted d q topk
  rw [hsorteq] at hsorted
  have hHge : S0 ≤ H.2 := by
    rw [hsorteq] at hmemsort
    rcases List.mem_cons.mp hmemsort with he | hm
    · rw [← he]
    · exact (List.sorted_cons.mp hsorted).1 _ hm
  have hHcrop : H ∈ cropScores d q topk :=
    (sortedCrops_perm d q topk).subset (by rw [hsorteq]; exact List.mem_cons_self H tail)
  obtain ⟨hHw, _⟩ := cropScores_entry d q topk H hHcrop
  have hcaps : (100000 : ℚ) * wmax < 1000000 := by norm_num [hwmax]
  have hH1 : H.1 = L0 := by
    by_contra hne
    have hlt := hothers H.1 hne
    rw [labelWeight_eq, ← hvotes] at hHw
    linarith
  have hHs : H.2 = S0 := by
    rw [hHw, labelWeight_eq, ← hvotes, hH1]
  have hpredhead : (predict (some d) q topk).head? =
      some (H.1, pyRound 2 (min (H.2 / ((sortedCrops d q topk).map Prod.snd).sum) 1)) := by
    have hpl : predict (some d) q topk = predictLoaded d q topk := rfl
    rw [hpl]
    unfold predictLoaded
    rw [hsorteq]
    obtain ⟨t', ht'⟩ : ∃ t', topk = t' + 1 := ⟨topk - 1, by omega⟩
    rw [ht', List.take_succ_cons, List.map_cons]
    rfl
  have hT : ((sortedCrops d q topk).map Prod.snd).sum = S0 + R := by
    rw [sortedCrops_sum, htot]
  have hTpos : (0:ℚ) < S0 + R := by linarith
  have hratio_le : S0 / (S0 + R) ≤ 1 := by
    rw [div_le_one hTpos]
    linarith
  have hminr : min (S0 / (S0 + R)) 1 = S0 / (S0 + R) := min_eq_left hratio_le
  have hratio_ge : (10:ℚ)/11 ≤ S0 / (S0 + R) := by
    rw [div_le_div_iff₀ (by norm_num) hTpos]
    linarith
  obtain ⟨hcl, hcr⟩ := abs_le.mp (pyRound_close 2 (S0 / (S0 + R)))
  refine ⟨pyRound 2 (min (H.2 / ((sortedCrops d q topk).map Prod.snd).sum) 1), ?_, ?_⟩
  · rw [hpredhead, hH1]
  · rw [hT, hHs, hminr]
    norm_num at hcl
    linarith

/-- C1 counterexample: on cexD1 with top_k = 1, predict returns rice
with confidence 18/25 = round(min(score/total, 1), 2) over the total of
ALL candidate labels, while normalizing within the returned top-k set
only (as the claim words it) would give confidence 1. -/
theorem claim_c1_counterexample :
    predict (some cexD1) cexQ1 1 = [("rice", 18/25)] ∧
    topkNormalized cexD1 cexQ1 1 = [("rice", 1)] ∧
    ((18:ℚ)/25) ≠ 1 := by
  refine ⟨?_, ?_, ?_⟩
  · with_unfolding_all decide
  · with_unfolding_all decide
  · norm_num

/-- Witness instantiating claim_c1_amended on cexD1: the returned
confidence 18/25 equals the rounded capped ratio of rice's vote weight
to the total weight over all candidate labels. -/
theorem claim_c1_amended_witness :
    ("rice", (18/25 : ℚ)) ∈ predict (some cexD1) cexQ1 1 ∧
    (18/25 : ℚ) =
      pyRound 2 (min (labelWeight cexD1 cexQ1 1 "rice" / totalWeight cexD1 cexQ1 1) 1) :=
  ⟨by with_unfolding_all decide,
   claim_c1_amended cexD1 cexQ1 1 "rice" (18/25) (by with_unfolding_all decide)⟩

/-- C4 (amended): every confidence returned by predict on a loaded
dataset lies in [0,1]; the rounded confidences sum to at most
1 + top_k/200 (the unrounded ratios sum to at most 1, but rounding can
push the sum slightly above 1, see the counterexample); and the
exact-match ranking property holds under the separation hypothesis
that every other row is at standardized distance at least one: the
matched row's label then ranks first with confidence above one half. -/
theorem claim_c4_amended (d : CropData) (q : List ℚ) (topk i0 : ℕ)
    (hi0 : i0 < d.rows.length)
    (hq : (d.rows.getD i0 ⟨[], ""⟩).features = q)
    (hfar : ∀ j, j < d.rows.length → j ≠ i0 → 1 ≤ (distances d q).getD j 0)
    (hn : d.rows.length ≤ 100000)
    (htop : 1 ≤ topk) :
    (∀ (e : CropData) (x : List ℚ) (k : ℕ), ∀ p ∈ predict (some e) x k,
        0 ≤ p.2 ∧ p.2 ≤ 1) ∧
    (∀ (e : CropData) (x : List ℚ) (k : ℕ),
        ((predict (some e) x k).map Prod.snd).sum ≤ 1 + (k : ℚ) / 200) ∧
    ∃ c : ℚ, (predict (some d) q topk).head? =
        some ((d.rows.getD i0 ⟨[], ""⟩).label, c) ∧ 1/2 < c :=
  ⟨fun e x k => predict_conf_unit e x k,
   fun e x k => predict_conf_sum e x k,
   predict_exact_match d q topk i0 hi0 hq hfar hn htop⟩

/-- C4 counterexample: on cexD4 the rounded confidences for top_k = 3
sum to 101/100 > 1, refuting the claimed bound of 1.0; and on cexD5
the query equals row 0 (label apple), which is the unique row at
distance zero, yet banana ranks first and apple's confidence is
19/50 < 1/2, refuting the claimed exact-match ranking. -/
theorem claim_c4_counterexample :
    ((predict (some cexD4) cexQ4 3).map Prod.snd).sum = 101/100 ∧
    ¬ ((101:ℚ)/100 ≤ 1) ∧
    (cexD5.rows.getD 0 ⟨[], ""⟩).features = cexQ5 ∧
    (distances cexD5 cexQ5).getD 0 0 = 0 ∧
    (∀ j, j < cexD5.rows.length → j ≠ 0 → 0 < (distances cexD5 cexQ5).getD j 0) ∧
    predict (some cexD5) cexQ5 3 = [("banana", 31/50), ("apple", 19/50), ("cherry", 0)] := by
  refine ⟨?_, ?_, ?_, ?_, ?_, ?_⟩
  · with_unfolding_all decide
  · norm_num
  · with_unfolding_all decide
  · with_unfolding_all decide
  · with_unfolding_all decide
  · with_unfolding_all decide

/-- Witness instantiating claim_c4_amended on cexD7 with top_k = 1:
the separation hypothesis holds and apple ranks first. -/
theorem claim_c4_amended_witness :
    (∀ j, j < cexD7.rows.length → j ≠ 0 → 1 ≤ (distances cexD7 cexQ7).getD j 0) ∧
    (∃ c : ℚ, (predict (some cexD7) cexQ7 1).head? =
        some ((cexD7.rows.getD 0 ⟨[], ""⟩).label, c) ∧ 1/2 < c) :=
  ⟨by with_unfolding_all decide,
   (claim_c4_amended cexD7 cexQ7 1 0 (by decide) (by with_unfolding_all decide)
     (by with_unfolding_all decide) (by decide) (by decide)).2.2⟩
